import Mathlib

/-!
Verification development for the OCR grade-sheet extraction pipeline.

The embedding below is a shallow model of the three TypeScript sources:
* `tableDetectionService` (grid builder, structure identifier, record extractor),
* `ocrService` (pipeline coordinator, pattern-based and basic extractors,
  numeral normalization),
* `ExcelService` (fuzzy matcher: id/name roster matching, similarity,
  Levenshtein edit distance).

Modelling conventions:
* JavaScript strings are modelled as `List Char` (all characters involved are
  in the Basic Multilingual Plane, so UTF-16 code units coincide with code
  points).
* JavaScript numbers are modelled as exact rationals `ℚ`.  Every numeric
  literal manipulated by the claims has at most two integer and two fractional
  digits, a range on which `parseFloat` rounding never crosses the comparison
  boundaries (`0`, `20`) used by the code, so the rational model agrees with
  the float semantics on all comparisons appearing below.
* Regular-expression tests and `String.prototype` methods (`split`, `replace`,
  `includes`, `endsWith`, `trim`, `toLowerCase`) are implemented as explicit
  recursive functions that follow the backtracking behaviour of the concrete
  regexes appearing in the source.
* Recursions that consume a suffix of the input that is not a structural tail
  use an explicit fuel argument initialised to the input length plus one; each
  step consumes at least one character, so the fuel never runs out on the
  initial call.
-/

/-- Characters are the atoms of our JS-string model. -/
abbrev Str := List Char

/-- JS `\s` for the whitespace actually occurring in OCR text. -/
def isWs (c : Char) : Bool :=
  c = ' ' || c = '\t' || c = '\n' || c = '\r'

/-- JS `\w` word characters, used by the `\b` word-boundary assertion. -/
def isWordChar (c : Char) : Bool :=
  c.isAlpha && c.toNat < 128 || c.isDigit || c = '_'

/-- Membership in the Arabic Unicode block `؀`-`ۿ`. -/
def isArabicChar (c : Char) : Bool :=
  0x600 ≤ c.toNat && c.toNat ≤ 0x6FF

/-- JS `String.prototype.trim` restricted to the whitespace of `isWs`. -/
def jsTrim (s : Str) : Str :=
  ((s.dropWhile isWs).reverse.dropWhile isWs).reverse

/-- JS `String.prototype.toLowerCase`; lower-cases ASCII letters and leaves
Arabic letters unchanged, exactly as `toLowerCase` does on this repertoire. -/
def toLowerJS (s : Str) : Str :=
  s.map Char.toLower

/-- Does `hay` start with `needle`? -/
def startsWithL : Str → Str → Bool
  | _, [] => true
  | [], _ :: _ => false
  | a :: as, b :: bs => a = b && startsWithL as bs

/-- JS `String.prototype.includes`: substring containment. -/
def containsSub (hay needle : Str) : Bool :=
  match hay with
  | [] => needle.isEmpty
  | _ :: t => startsWithL hay needle || containsSub t needle

/-- JS `String.prototype.endsWith`: is `needle` a suffix of `hay`? -/
def endsWithL (hay needle : Str) : Bool :=
  startsWithL hay.reverse needle.reverse

/-- Numeric value of a (non-empty) digit string, most significant digit
first; models `parseInt(s, 10)` on all-digit input. -/
def digitsToNat (s : Str) : ℕ :=
  s.foldl (fun n c => 10 * n + (c.toNat - 48)) 0

/-- Exact rational value of a decimal literal `digits` or `digits.digits`
(the value `ip + fp / 10 ^ |fp|`, written with `Rat.divInt` so that it
evaluates inside the kernel); models `parseFloat` on input of that shape. -/
def parseDecQ (s : Str) : ℚ :=
  let ip := s.takeWhile (fun c => c ≠ '.')
  let fp := (s.dropWhile (fun c => c ≠ '.')).drop 1
  Rat.divInt ((digitsToNat ip * 10 ^ fp.length + digitsToNat fp : ℕ) : ℤ)
    (((10 ^ fp.length : ℕ) : ℤ))

/-- Decimal rendering of a natural number, used for template strings that
interpolate an integer id. -/
def natToStr (n : ℕ) : Str :=
  (Nat.toDigits 10 n)

/-- Decimal rendering of a nonnegative rational whose denominator divides a
power of ten (the only values interpolated into a name by the code paths we
evaluate); models JS number-to-string on those values. -/
def qToStr (q : ℚ) : Str :=
  let n := q.num.toNat
  let d := q.den
  let ip := natToStr (n / d)
  let rest := n % d
  if rest = 0 then ip
  else
    let go : ℕ → ℕ → Str := fun fuel r => Id.run do
      let mut out : Str := []
      let mut rem := r
      for _ in List.range fuel do
        if rem ≠ 0 then
          let x := rem * 10
          out := out ++ natToStr (x / d)
          rem := x % d
      return out
    ip ++ '.' :: go 20 rest

/-!  ### Embedding of `ExcelService` (DataTable.tsx) -/

/-- `editDistance` inner loop of the source, one outer iteration: given the
current character `c` of `s1`, the remaining characters of `s2`, the running
`lastValue`, and the old cost row starting at the current column, produce the
new cost row cells written by the loop (the final element models the
`costs[s2.length] = lastValue` write after the inner loop). -/
def edStep (c : Char) : Str → ℕ → List ℕ → List ℕ
  | [], last, _ => [last]
  | y :: ys, last, diag :: up :: rest =>
      let newV := if c = y then diag else min (min diag last) up + 1
      last :: edStep c ys newV (up :: rest)
  | _ :: _, last, _ => [last]

/-- `editDistance` outer loop over the characters of `s1`; the counter is the
source's `i` (value entering the iteration is `i - 1`). -/
def edLoop (s2 : Str) : Str → ℕ → List ℕ → List ℕ
  | [], _, row => row
  | c :: cs, i, row => edLoop s2 cs (i + 1) (edStep c s2 (i + 1) row)

/-- `editDistance(s1, s2)` of the source: single-row rolling-cost dynamic
programming, initial row `costs[j] = j`, result `costs[s2.length]`. -/
def editDistance (s1 s2 : Str) : ℕ :=
  (edLoop s2 s1 0 (List.range (s2.length + 1))).getD s2.length 0

/-- `calculateSimilarity(s1, s2)` of the source. -/
def calculateSimilarity (s1 s2 : Str) : ℚ :=
  if s1 = s2 then 1
  else
    let longer := if s1.length > s2.length then s1 else s2
    let shorter := if s1.length > s2.length then s2 else s1
    if longer.length = 0 then 1
    else if containsSub longer shorter then 9 / 10
    else ((longer.length : ℚ) - (editDistance longer shorter : ℚ)) / (longer.length : ℚ)

/-- `compareNames` of the source: similarity strictly above the 0.70
threshold. -/
def compareNames (n1 n2 : Str) : Bool :=
  decide (calculateSimilarity n1 n2 > 7 / 10)

/-- Canonical (NFKD) decomposition of the characters this code path can
receive; models the `String.prototype.normalize("NFKD")` builtin on the
Arabic repertoire relevant here and is the identity elsewhere. -/
def nfkdChar (c : Char) : Str :=
  if c = 'آ' then ['ا', 'ٓ']
  else if c = 'أ' then ['ا', 'ٔ']
  else if c = 'إ' then ['ا', 'ٕ']
  else if c = 'ؤ' then ['و', 'ٔ']
  else if c = 'ئ' then ['ي', 'ٔ']
  else [c]

/-- `normalizeArabicText` of the source: NFKD, strip `̀`-`ͯ`
combining marks, collapse alef variants, `ة`→`ه`, `ى`→`ي`, trim,
lower-case. -/
def normalizeArabicText (t : Str) : Str :=
  let step1 := t.flatMap nfkdChar
  let step2 := step1.filter (fun c => !(0x300 ≤ c.toNat && c.toNat ≤ 0x36F))
  let step3 := step2.map (fun c =>
    if c = 'أ' || c = 'إ' || c = 'آ' then 'ا'
    else if c = 'ة' then 'ه'
    else if c = 'ى' then 'ي'
    else c)
  toLowerJS (jsTrim step3)

/-- The row scan shared by both roster lookups: `for (let i = 1; ...)`,
returning the first index whose row satisfies the predicate, else `-1`. -/
def scanLoop (p : List Str → Bool) : List (List Str) → ℕ → ℤ
  | [], _ => -1
  | r :: rest, i => if p r then (i : ℤ) else scanLoop p rest (i + 1)

/-- `replace(/[^0-9]/g, "")` of the source. -/
def cleanDigits (s : Str) : Str :=
  s.filter Char.isDigit

/-- `findStudentRowByNumber` of the source (the roster's id column index is
the `worksheetStructure.studentNumberColumn` field, passed explicitly).
Cells are modelled as strings; a cell is JS-truthy iff non-empty. -/
def findStudentRowByNumber (numColumn : ℕ) (studentNum : Str)
    (values : List (List Str)) : ℤ :=
  let clean := cleanDigits studentNum
  scanLoop
    (fun row =>
      match row.get? numColumn with
      | some cell =>
          cell ≠ [] &&
            (endsWithL (cleanDigits cell) clean || endsWithL clean (cleanDigits cell))
      | none => false)
    (values.drop 1) 1

/-- `findStudentRowByName` of the source (name column passed explicitly). -/
def findStudentRowByName (nameColumn : ℕ) (studentName : Str)
    (values : List (List Str)) : ℤ :=
  let nameToFind := normalizeArabicText studentName
  scanLoop
    (fun row =>
      match row.get? nameColumn with
      | some cell => compareNames nameToFind (normalizeArabicText cell)
      | none => false)
    (values.drop 1) 1

/-!  ### Regex matchers shared by the grid builder and the extractors -/

/-- `\b` at the position after a match ending in a word character: succeeds at
end of input or before a non-word character. -/
def boundaryOkAfter : Str → Bool
  | [] => true
  | c :: _ => !isWordChar c

/-- Fractional part `(?:[.,]\d{1,2})` of the mark-token regex, starting right
after the integer digits, including the trailing `\b` check; greedy, two
fractional digits preferred over one. -/
def tryFrac : Str → Option (Str × Str)
  | sep :: f1 :: r2 =>
    if (sep = '.' || sep = ',') && f1.isDigit then
      match r2 with
      | f2 :: r3 =>
        if f2.isDigit then
          if boundaryOkAfter r3 then some ([sep, f1, f2], r3) else none
        else if boundaryOkAfter r2 then some ([sep, f1], r2) else none
      | [] => some ([sep, f1], [])
    else none
  | _ => none

/-- One attempt of `\b(\d{1,2}(?:[.,]\d{1,2})?)\b` (`fracReq = false`) or
`\b(\d{1,2}[.,]\d{1,2})\b` (`fracReq = true`) at the current position (the
leading `\b` is checked by the caller), following the engine's backtracking
order: two integer digits before one, fractional part before none. -/
def tryTok (fracReq : Bool) : Str → Option (Str × Str)
  | [] => none
  | d1 :: rest1 =>
    if !d1.isDigit then none
    else
      match rest1 with
      | d2 :: r2 =>
        if d2.isDigit then
          match tryFrac r2 with
          | some (fr, rem) => some (d1 :: d2 :: fr, rem)
          | none =>
            if !fracReq && boundaryOkAfter r2 then some ([d1, d2], r2) else none
        else
          match tryFrac rest1 with
          | some (fr, rem) => some (d1 :: fr, rem)
          | none =>
            if !fracReq && boundaryOkAfter rest1 then some ([d1], rest1) else none
      | [] => if !fracReq then some ([d1], []) else none

/-- Global scan of the mark-token regex (`exec` loop with `lastIndex`
advancing past each match); `prev` is the character before the current
position, for the leading `\b`. -/
def scanTokens (fracReq : Bool) : ℕ → Option Char → Str → List Str
  | 0, _, _ => []
  | _ + 1, _, [] => []
  | fuel + 1, prev, c :: rest =>
    if (match prev with | some p => !isWordChar p | none => true) then
      match tryTok fracReq (c :: rest) with
      | some (m, rem) => m :: scanTokens fracReq fuel (some (m.getLastD '0')) rem
      | none => scanTokens fracReq fuel (some c) rest
    else scanTokens fracReq fuel (some c) rest

/-- All matches of `/\b(\d{1,2}(?:[.,]\d{1,2})?)\b/g` in a line. -/
def scanMarks (line : Str) : List Str :=
  scanTokens false (line.length + 1) none line

/-- All matches of `/\b(\d{1,2}[.,]\d{1,2})\b/g` in a line. -/
def scanMarksDec (line : Str) : List Str :=
  scanTokens true (line.length + 1) none line

/-- `mark.replace(",", ".")`: replace the first comma. -/
def commaFix : Str → Str
  | [] => []
  | ',' :: r => '.' :: r
  | c :: r => c :: commaFix r

/-- `textContent.replace(mark, "|")`: replace the first occurrence of the
literal substring `m` by `rep`. -/
def replaceFirst : Str → Str → Str → Str
  | [], _, _ => []
  | c :: rest, m, rep =>
    if startsWithL (c :: rest) m then rep ++ (c :: rest).drop m.length
    else c :: replaceFirst rest m rep

/-- `line.split(/\s{2,}|\|/)`: a run of two or more whitespace characters, or
a single pipe, separates segments; a single whitespace character stays inside
its segment. -/
def splitSegsGo : ℕ → Str → Str → List Str
  | 0, cur, _ => [cur.reverse]
  | _ + 1, cur, [] => [cur.reverse]
  | fuel + 1, cur, '|' :: rest => cur.reverse :: splitSegsGo fuel [] rest
  | fuel + 1, cur, c :: rest =>
    if isWs c then
      let run := (c :: rest).takeWhile isWs
      if run.length ≥ 2 then cur.reverse :: splitSegsGo fuel [] ((c :: rest).drop run.length)
      else splitSegsGo fuel (c :: cur) rest
    else splitSegsGo fuel (c :: cur) rest

/-- See `splitSegsGo`. -/
def splitSegs (line : Str) : List Str :=
  splitSegsGo (line.length + 1) [] line

/-- `String.prototype.split` with a single-character separator. -/
def splitOnCharGo (sep : Char) : Str → Str → List Str
  | cur, [] => [cur.reverse]
  | cur, c :: rest =>
    if c = sep then cur.reverse :: splitOnCharGo sep [] rest
    else splitOnCharGo sep (c :: cur) rest

/-!  ### Embedding of `TableDetectionService` (part_000) -/

/-- The grid builder's cell (`TableCell` of the source, with the `position`
record inlined as `row`/`col`). -/
structure TableCell where
  text : Str
  row : ℕ
  col : ℕ
  isNumeric : Bool
  value : Option ℚ
deriving Repr, DecidableEq

/-- `TableStructure` of the source. -/
structure TableStructure where
  headerRow : ℕ
  studentIdColumn : ℕ
  studentNameColumn : ℕ
  markColumns : List ℕ
  rowCount : ℕ
  colCount : ℕ
  cells : List (List TableCell)
deriving Repr, DecidableEq

/-- `StudentMarks` of the source. -/
structure StudentMarks where
  fard1 : Option ℚ
  fard2 : Option ℚ
  fard3 : Option ℚ
  activities : Option ℚ
deriving Repr, DecidableEq

/-- `Student` of the source (`number` is a JS number: the table path can
store a non-integral cell value in it). -/
structure Student where
  number : ℚ
  name : Str
  marks : StudentMarks
deriving Repr, DecidableEq

/-- `text.replace(/,/g, ".").trim()` in `parseNumericValue`. -/
def cleanNum (text : Str) : Str :=
  jsTrim (text.map (fun c => if c = ',' then '.' else c))

/-- `/^\d+(\.\d+)?$/` on the cleaned text. -/
def plainNumShape (s : Str) : Bool :=
  let ds := s.takeWhile Char.isDigit
  let r := s.drop ds.length
  !ds.isEmpty &&
    (r.isEmpty ||
      (match r with
       | '.' :: f => !f.isEmpty && f.all Char.isDigit
       | _ => false))

/-- Fraction of the unanchored pair search `(\d{1,2})[.,](\d{1,2})`: a
separator followed by one or two digits (greedy), no boundary assertions. -/
def pairFracAt : Str → Option Str
  | sep :: f1 :: r2 =>
    if (sep = '.' || sep = ',') && f1.isDigit then
      match r2 with
      | f2 :: _ => if f2.isDigit then some [f1, f2] else some [f1]
      | [] => some [f1]
    else none
  | _ => none

/-- Leftmost match of `/(\d{1,2})[.,](\d{1,2})/` (no word boundaries), as
(integer digits, fraction digits). -/
def findPair : Str → Option (Str × Str)
  | [] => none
  | c :: rest =>
    if c.isDigit then
      match rest with
      | d2 :: r2 =>
        if d2.isDigit then
          match pairFracAt r2 with
          | some f => some ([c, d2], f)
          | none => findPair rest
        else
          match pairFracAt rest with
          | some f => some ([c], f)
          | none => findPair rest
      | [] => none
    else findPair rest

/-- `parseNumericValue` of the source. -/
def parseNumericValue (text : Str) : Option ℚ :=
  let ct := cleanNum text
  if plainNumShape ct then some (parseDecQ ct)
  else
    match findPair ct with
    | some (ip, fp) => some (parseDecQ (ip ++ '.' :: fp))
    | none => none

/-- `parseLine` of the source. -/
def parseLine (line : Str) (rowIndex : ℕ) : List TableCell :=
  let segs0 := (splitSegs line).filter (fun s => !(jsTrim s).isEmpty)
  let segs :=
    if segs0.length ≤ 1 then
      let marks := scanMarks line
      if !marks.isEmpty then
        ((splitOnCharGo '|' [] (marks.foldl (fun t m => replaceFirst t m ['|']) line)).filter
            (fun s => !(jsTrim s).isEmpty)) ++ marks
      else segs0
    else segs0
  segs.enum.filterMap (fun p =>
    let text := jsTrim p.2
    if text.isEmpty then none
    else
      let nv := parseNumericValue text
      some { text := text, row := rowIndex, col := p.1, isNumeric := nv.isSome, value := nv })

/-- An empty padding cell inserted by grid normalization. -/
def emptyCellAt (r c2 : ℕ) : TableCell :=
  { text := [], row := r, col := c2, isNumeric := false, value := none }

/-- `refineGrid` of the source: pad all rows to the maximal length and
renumber positions. -/
def refineGrid (grid : List (List TableCell)) : List (List TableCell) :=
  if grid.isEmpty then grid
  else
    let maxColumns := grid.foldl (fun m row => max m row.length) 0
    grid.enum.map (fun p =>
      (p.2.enum.map fun q => { q.2 with row := p.1, col := q.1 }) ++
        (List.range (maxColumns - p.2.length)).map fun k => emptyCellAt p.1 (p.2.length + k))

/-- Keyword test locating the start of tabular data. -/
def headerKeywordLine (l : Str) : Bool :=
  containsSub l "رقم".data || containsSub l "اسم".data ||
    containsSub l "الفرض".data || containsSub l "ر.ت".data

/-- `/^\s*\d+\s/` . -/
def startsNumWs (l : Str) : Bool :=
  let a := l.dropWhile isWs
  let ds := a.takeWhile Char.isDigit
  !ds.isEmpty &&
    (match a.drop ds.length with
     | c :: _ => isWs c
     | [] => false)

/-- Index of the line where the data table starts (`dataStartLine`), if any. -/
def dataStartLine (lines : List Str) : Option ℕ :=
  match lines.findIdx? headerKeywordLine with
  | some i => some i
  | none => (lines.findIdx? startsNumWs).map (fun i => i - 1)

/-- `/^\d+/` on a trimmed line. -/
def leadDigit (l : Str) : Bool :=
  match l with
  | c :: _ => c.isDigit
  | [] => false

/-- `/^\|\s*\d+/` . -/
def pipeNumStart (l : Str) : Bool :=
  match l with
  | '|' :: r =>
    (match r.dropWhile isWs with
     | c :: _ => c.isDigit
     | [] => false)
  | _ => false

/-- `/^[؀-ۿ\s]+$/`: a non-empty line of Arabic letters and
whitespace only. -/
def arabicOnlyLine (l : Str) : Bool :=
  !l.isEmpty && l.all (fun c => isArabicChar c || isWs c)

/-- Separator followed by exactly two digits, for `\d{1,2}[.,]\d{2}`. -/
def sepDD : Str → Bool
  | s :: a :: b :: _ => (s = '.' || s = ',') && a.isDigit && b.isDigit
  | _ => false

/-- Unanchored test of `/\d{1,2}[.,]\d{2}/`. -/
def hasDecTwo : Str → Bool
  | [] => false
  | c :: rest =>
    (c.isDigit &&
      (sepDD rest ||
        (match rest with
         | d2 :: r2 => d2.isDigit && sepDD r2
         | [] => false))) ||
    hasDecTwo rest

/-- First-pass classification of a (trimmed, non-empty) line as a table
row. -/
def isTableRow (t : Str) : Bool :=
  leadDigit t || pipeNumStart t || arabicOnlyLine t || hasDecTwo t

/-- `createPreliminaryGrid` of the source. -/
def createPreliminaryGrid (lines : List Str) : List (List TableCell) :=
  match dataStartLine lines with
  | none => []
  | some ds =>
    let pl := lines.drop ds
    let idx1 := (List.range pl.length).filter (fun i =>
      let t := jsTrim (pl.getD i [])
      !t.isEmpty && isTableRow t)
    let idx :=
      if idx1.length < 5 && pl.length > 10 then
        (List.range pl.length).filter (fun i =>
          let t := jsTrim (pl.getD i [])
          !(t.length > 100 || t.length < 2) && (t.any isArabicChar || t.any Char.isDigit))
      else idx1
    refineGrid (idx.enum.map (fun p => parseLine (pl.getD p.2 []) p.1))

/-- Header keyword list of `findHeaderRow`. -/
def headerIndicators : List Str :=
  ["رقم".data, "اسم".data, "التلميذ".data, "الفرض".data,
   "النقطة".data, "المادة".data, "الأنشطة".data]

/-- Concatenated lower-cased text of a row. -/
def rowJoinedText (row : List TableCell) : Str :=
  toLowerJS (List.intercalate [' '] (row.map TableCell.text))

/-- `findHeaderRow` of the source: first of the first five rows containing a
header keyword, else row 0. -/
def findHeaderRow (grid : List (List TableCell)) : ℕ :=
  ((List.range (min 5 grid.length)).find? (fun r =>
    headerIndicators.any (fun kw => containsSub (rowJoinedText (grid.getD r [])) (toLowerJS kw)))).getD 0

/-- Id-column header keywords. -/
def isIdHeader (t : Str) : Bool :=
  containsSub t "رقم".data || containsSub t "ر.ت".data

/-- Name-column header keywords. -/
def isNameHeader (t : Str) : Bool :=
  containsSub t "اسم".data || containsSub t "التلميذ".data

/-- Mark-column header keywords. -/
def isMarkHeader (t : Str) : Bool :=
  containsSub t "فرض".data || containsSub t "الفرض".data || containsSub t "نقطة".data ||
    containsSub t "الأنشطة".data || containsSub t "نشاط".data

/-- Index of the last cell satisfying `p` (repeated assignment in the header
loop keeps the last match). -/
def lastIdxWhere (l : List TableCell) (p : TableCell → Bool) : Option ℕ :=
  ((l.enum.filter (fun q => p q.2)).map Prod.fst).getLast?

/-- Header-pass id column. -/
def headerIdCol (grid : List (List TableCell)) (headerRow : ℕ) : Option ℕ :=
  lastIdxWhere (grid.getD headerRow []) (fun c => isIdHeader (toLowerJS c.text))

/-- Header-pass name column. -/
def headerNameCol (grid : List (List TableCell)) (headerRow : ℕ) : Option ℕ :=
  lastIdxWhere (grid.getD headerRow []) (fun c => isNameHeader (toLowerJS c.text))

/-- Header-pass mark columns, in ascending column order. -/
def headerMarkCols (grid : List (List TableCell)) (headerRow : ℕ) : List ℕ :=
  ((grid.getD headerRow []).enum.filter (fun q => isMarkHeader (toLowerJS q.2.text))).map Prod.fst

/-- Per-column cell counting of the content-based pass (each row contributes
when the column exists in it, matching the source's per-row iteration on
rectangular grids). -/
def countColP (rows : List (List TableCell)) (col : ℕ) (p : TableCell → Bool) : ℕ :=
  rows.countP (fun row => col < row.length && p (row.getD col (emptyCellAt 0 0)))

/-- Run of at least seven digits somewhere in the text (`/\d{7,}/`). -/
def hasRun7 : Str → Bool
  | [] => false
  | c :: rest => ((c :: rest).takeWhile Char.isDigit).length ≥ 7 || hasRun7 rest

/-- `/[Gg]\d{7,}/`. -/
def gRun7 : Str → Bool
  | [] => false
  | c :: rest =>
    ((c = 'G' || c = 'g') && (rest.takeWhile Char.isDigit).length ≥ 7) || gRun7 rest

/-- Student-id content pattern of `identifyColumns`. -/
def hasIdPattern (t : Str) : Bool :=
  gRun7 t || hasRun7 t

/-- Is the numeric value of a cell in the mark range `[0, 20]`? -/
def inMarkRange (v : Option ℚ) : Bool :=
  match v with
  | some x => decide (0 ≤ x) && decide (x ≤ 20)
  | none => false

/-- First index attaining the maximal positive count; models sorting the
`(index, count)` candidates by descending count with a stable sort and taking
the head. -/
def argmaxPos (f : ℕ → ℕ) (n : ℕ) : Option ℕ :=
  (List.range n).foldl (fun best i =>
    if f i > 0 && (match best with | none => true | some b => f i > f b) then some i else best)
    none

/-- `argmaxPos` restricted to columns different from `excl` (the candidate
filter excluding the id column). -/
def argmaxPosExcl (f : ℕ → ℕ) (n : ℕ) (excl : ℕ) : Option ℕ :=
  (List.range n).foldl (fun best i =>
    if f i > 0 && i ≠ excl && (match best with | none => true | some b => f i > f b) then some i
    else best)
    none

/-- `identifyColumns` of the source: header-keyword pass, then (when id,
name, or marks remain unresolved) the content-based statistical pass, then
defaults (id 0, name 1), ascending sort of the mark columns, and the
remaining-columns fallback.  The `> totalRows * 0.3` float comparison is
modelled by the exact `10 * count > 3 * totalRows`, which agrees with the
float computation on all machine-realisable row counts. -/
def identifyColumnsRaw (grid : List (List TableCell)) (headerRow : ℕ) :
    Option ℕ × Option ℕ × List ℕ :=
  let idH := headerIdCol grid headerRow
  let nameH := headerNameCol grid headerRow
  let marksH := headerMarkCols grid headerRow
  let colCount := (grid.headD []).length
  if idH.isNone || nameH.isNone || marksH.isEmpty then
    let contentRows := grid.drop (headerRow + 1)
    let idPatternCount := fun col => countColP contentRows col (fun c => hasIdPattern c.text)
    let arabicCount := fun col => countColP contentRows col (fun c => c.text.any isArabicChar)
    let markRangeCount := fun col =>
      countColP contentRows col (fun c => c.isNumeric && inMarkRange c.value)
    let numericCount := fun col => countColP contentRows col (fun c => c.isNumeric)
    let id1 : ℕ :=
      match idH with
      | some i => i
      | none => (argmaxPos idPatternCount colCount).getD 0
    let name1 : Option ℕ :=
      match nameH with
      | some i => some i
      | none => argmaxPosExcl arabicCount colCount id1
    let marks1 : List ℕ :=
      if marksH.isEmpty then
        let m := (List.range colCount).filter (fun col =>
          col ≠ id1 && some col ≠ name1 && 10 * markRangeCount col > 3 * contentRows.length)
        if m.isEmpty then
          (List.range colCount).filter (fun col =>
            col ≠ id1 && some col ≠ name1 && numericCount col > 0)
        else m
      else marksH
    (some id1, name1, marks1)
  else (idH, nameH, marksH)

/-- Final normalization of `identifyColumns`: defaults (id 0, name 1),
ascending sort of the mark columns, and the remaining-columns fallback. -/
def finalizeColumns (colCount : ℕ) (t : Option ℕ × Option ℕ × List ℕ) : ℕ × ℕ × List ℕ :=
  let id := t.1.getD 0
  let name := t.2.1.getD 1
  let sorted := List.insertionSort (fun a b => a ≤ b) t.2.2
  let marksF :=
    if sorted.isEmpty then (List.range colCount).filter (fun c2 => c2 ≠ id && c2 ≠ name)
    else sorted
  (id, name, marksF)

/-- `identifyColumns` of the source, as the two stages above. -/
def identifyColumns (grid : List (List TableCell)) (headerRow : ℕ) : ℕ × ℕ × List ℕ :=
  finalizeColumns (grid.headD []).length (identifyColumnsRaw grid headerRow)

/-- `identifyTableStructure` of the source. -/
def identifyTableStructure (grid : List (List TableCell)) : Option TableStructure :=
  if grid.isEmpty then none
  else
    let headerRow := findHeaderRow grid
    let cols := identifyColumns grid headerRow
    some { headerRow := headerRow, studentIdColumn := cols.1, studentNameColumn := cols.2.1,
           markColumns := cols.2.2, rowCount := grid.length,
           colCount := (grid.headD []).length, cells := grid }

/-- `detectTable` of the source. -/
def detectTable (lines : List Str) : Option TableStructure :=
  identifyTableStructure (createPreliminaryGrid lines)

/-- `value.toFixed(2)` followed by `parseFloat`: round to two decimal places,
ties to the larger value, as specified for `toFixed`; the result is
`⌊100 * q + 1 / 2⌋ / 100`, written as `(200 * num + den).fdiv (2 * den) / 100`
so that it evaluates inside the kernel. -/
def toFixed2 (q : ℚ) : ℚ :=
  Rat.divInt ((200 * q.num + (q.den : ℤ)).fdiv (2 * (q.den : ℤ))) 100

/-- `extractStudentData` of the source. -/
def extractStudentData (ts : TableStructure) : List Student :=
  ((List.range ts.cells.length).drop (ts.headerRow + 1)).filterMap (fun rowIndex =>
    let row := ts.cells.getD rowIndex []
    let idCell := row.get? ts.studentIdColumn
    let nameCell := row.get? ts.studentNameColumn
    let idText := (idCell.map TableCell.text).getD []
    let nameText := (nameCell.map TableCell.text).getD []
    if idText.isEmpty && nameText.isEmpty then none
    else
      let defaultId : ℚ := ((rowIndex - ts.headerRow : ℕ) : ℚ)
      let studentId : ℚ :=
        match idCell with
        | some c =>
          if c.isNumeric && c.value.isSome then c.value.getD 0
          else if !c.text.isEmpty then
            let np := c.text.filter Char.isDigit
            if !np.isEmpty then (digitsToNat np : ℚ) else defaultId
          else defaultId
        | none => defaultId
      let studentName := if !nameText.isEmpty then nameText else "Student ".data ++ qToStr studentId
      let slot := fun (k : ℕ) =>
        match ts.markColumns.get? k with
        | some colIndex =>
          if colIndex < row.length then
            match row.get? colIndex with
            | some mc =>
              if mc.isNumeric && mc.value.isSome then some (toFixed2 (mc.value.getD 0)) else none
            | none => none
          else none
        | none => none
      some { number := studentId, name := studentName,
             marks := { fard1 := slot 0, fard2 := slot 1, fard3 := slot 2, activities := slot 3 } })

/-!  ### Embedding of `OCRService` (part_001) -/

/-- `normalizeArabicNumber` of the source: map the Arabic-Indic digits
`٠`-`٩` (U+0660-U+0669) to ASCII digits, leaving every other character —
including the Eastern Arabic-Indic digits `۰`-`۹` (U+06F0-U+06F9) —
unchanged. -/
def normalizeArabicNumber (s : Str) : Str :=
  s.map (fun c =>
    if 0x660 ≤ c.toNat && c.toNat ≤ 0x669 then Char.ofNat (48 + (c.toNat - 0x660)) else c)

/-- Header test of `findStudentSection`. -/
def isSectionHeaderLine (l : Str) : Bool :=
  let low := toLowerJS l
  containsSub low "اسم التلميذ".data || containsSub low "ر.ت".data ||
    (containsSub low "رقم".data && containsSub low "اسم".data)

/-- End-of-section test of `findStudentSection` at index `i`. -/
def isSectionEndLine (lines : List Str) (start i : ℕ) : Bool :=
  let l := lines.getD i []
  containsSub l "توقيع".data || containsSub l "الأستاذ".data ||
    containsSub l "المدير".data || containsSub l "ملاحظة".data ||
    (decide (i > start + 5) && (jsTrim l).isEmpty &&
      (match lines.get? (i + 1) with
       | some nxt => (jsTrim nxt).isEmpty
       | none => false))

/-- `findStudentSection` of the source. -/
def findStudentSection (lines : List Str) : Option (List Str) :=
  let start? :=
    match lines.findIdx? isSectionHeaderLine with
    | some i => some i
    | none => lines.findIdx? startsNumWs
  match start? with
  | none => none
  | some start =>
    let endIdx :=
      (((List.range lines.length).filter (fun i => start + 1 ≤ i)).find?
        (fun i => isSectionEndLine lines start i)).getD lines.length
    some ((lines.take endIdx).drop start)

/-- Header-line skip of `extractStudentInfoFromSection`. -/
def infoHeaderSkip (line : Str) : Bool :=
  containsSub line "اسم التلميذ".data || containsSub line "ر.ت".data ||
    (containsSub line "رقم".data && containsSub line "اسم".data)

/-- First pattern `/^\s*(\d+)\s*[\|\s]*([؀-ۿ\s]+)/`.  The greedy
engine places the capture as late as possible: after the maximal run of
whitespace/pipes following the digits, the capture is the maximal run of
Arabic letters and whitespace if an Arabic letter starts there; otherwise the
engine backtracks into the whitespace run, capturing whitespace only — that
capture trims to the empty string, and every use site trims, so the embedding
returns the trimmed capture. -/
def pattern1 (l : Str) : Option (Str × Str) :=
  let a := l.dropWhile isWs
  let ds := a.takeWhile Char.isDigit
  if ds.isEmpty then none
  else
    let r := a.drop ds.length
    let run := r.takeWhile (fun c => isWs c || c = '|')
    match r.get? run.length with
    | some c =>
      if isArabicChar c then
        some (ds, jsTrim ((r.drop run.length).takeWhile (fun c2 => isArabicChar c2 || isWs c2)))
      else if run.any isWs then some (ds, [])
      else none
    | none => if run.any isWs then some (ds, []) else none

/-- Second pattern `/^\s*(\d+)\s*$/`. -/
def pattern2 (l : Str) : Option Str :=
  let a := l.dropWhile isWs
  let ds := a.takeWhile Char.isDigit
  if !ds.isEmpty && (a.drop ds.length).all isWs then some ds else none

/-- `line.match(/\d+/g)` head: the first maximal digit run. -/
def firstDigitRun : Str → Option Str
  | [] => none
  | c :: rest =>
    if c.isDigit then some ((c :: rest).takeWhile Char.isDigit) else firstDigitRun rest

/-- `studentInfo[id] = name` on a JS object modelled as an insertion-ordered
association list: an existing key keeps its position, a new key is
appended. -/
def insertJS : List (Str × Str) → Str → Str → List (Str × Str)
  | [], k, v => [(k, v)]
  | e :: t, k, v => if e.1 = k then (e.1, v) :: t else e :: insertJS t k v

/-- The fallback display name `طالب ${id}`. -/
def placeholderName (id : Str) : Str :=
  "طالب ".data ++ id

/-- Loop body of `extractStudentInfoFromSection` (the pattern-2 branch may
consume the following line as the student's name); the fuel exceeds the
number of remaining lines, and every step consumes at least one line. -/
def extractInfoGo : ℕ → List Str → List (Str × Str) → List (Str × Str)
  | 0, _, m => m
  | _ + 1, [], m => m
  | fuel + 1, l :: rest, m =>
    let line := jsTrim l
    if infoHeaderSkip line then extractInfoGo fuel rest m
    else
      match pattern1 line with
      | some p => extractInfoGo fuel rest (insertJS m p.1 (jsTrim p.2))
      | none =>
        match pattern2 line with
        | some id =>
          match rest with
          | nxt :: rest2 =>
            if arabicOnlyLine nxt then extractInfoGo fuel rest2 (insertJS m id (jsTrim nxt))
            else extractInfoGo fuel rest (insertJS m id (placeholderName id))
          | [] => extractInfoGo fuel rest (insertJS m id (placeholderName id))
        | none =>
          if line.any isArabicChar then
            match firstDigitRun line with
            | some num =>
              let name := jsTrim (line.filter (fun c => !c.isDigit))
              if name.length > 2 then extractInfoGo fuel rest (insertJS m num name)
              else extractInfoGo fuel rest m
            | none => extractInfoGo fuel rest m
          else extractInfoGo fuel rest m

/-- `extractStudentInfoFromSection` of the source. -/
def extractStudentInfoFromSection (section1 : List Str) : List (Str × Str) :=
  extractInfoGo (section1.length + 1) section1 []

/-- Canonical array-index keys, which a JS object enumerates first, in
ascending numeric order. -/
def isArrayIndexKey (k : Str) : Bool :=
  !k.isEmpty && k.all Char.isDigit && (k = ['0'] || k.headD '0' ≠ '0') &&
    digitsToNat k < 4294967295

/-- `Object.entries` enumeration order (ES2015+): array-index keys in
ascending numeric order first, then the remaining keys in insertion order. -/
def jsEntries (m : List (Str × Str)) : List (Str × Str) :=
  List.insertionSort (fun a b => digitsToNat a.1 ≤ digitsToNat b.1)
      (m.filter (fun e => isArrayIndexKey e.1)) ++
    m.filter (fun e => !isArrayIndexKey e.1)

/-- `parseInt(key, 10)` on the digit-run keys produced by the extractor. -/
def parseIntJS (k : Str) : ℤ :=
  (digitsToNat (k.takeWhile Char.isDigit) : ℤ)

/-- Metadata lines skipped by mark harvesting. -/
def skipMetaLine (line : Str) : Bool :=
  containsSub line "تاريخ".data || containsSub line "الموسم".data ||
    containsSub line "الدراسي".data || containsSub line "المملكة".data ||
    containsSub line "وزارة".data

/-- Marks harvested from one line: every mark-token match whose value lies in
`[0, 20]`. -/
def lineMarkValues (line : Str) : List ℚ :=
  (scanMarks line).filterMap (fun m =>
    let v := parseDecQ (commaFix m)
    if 0 ≤ v ∧ v ≤ 20 then some v else none)

/-- `extractMarkValues` of the source. -/
def extractMarkValues (lines : List Str) : List ℚ :=
  lines.foldr (fun line acc => if skipMetaLine line then acc else lineMarkValues line ++ acc) []

/-- Positional slot assignment `fard1, fard2, fard3, activities` from a
per-student mark list (entries beyond the fourth are ignored by the fixed
`switch`). -/
def mkSlots (sm : List ℚ) : StudentMarks :=
  { fard1 := sm.get? 0, fard2 := sm.get? 1, fard3 := sm.get? 2, activities := sm.get? 3 }

/-- Distribution loop of `assignMarksToStudents`: each student consumes the
next `mps` harvested values (fewer if the sequence runs out). -/
def assignGo (mps : ℕ) (marks : List ℚ) : List (ℤ × Str) → ℕ → List Student
  | [], _ => []
  | e :: rest, idx =>
    let sm := (marks.drop idx).take mps
    { number := (e.1 : ℚ), name := e.2, marks := mkSlots sm } :: assignGo mps marks rest (idx + sm.length)

/-- `assignMarksToStudents` of the source.  `Object.entries` enumeration is
modelled by `jsEntries`; the `(a, b) => a.id - b.id` comparator sort is the
stable ascending `insertionSort`; `Math.min(4, Math.floor(len / count))` is
the natural-number division. -/
def assignMarksToStudents (m : List (Str × Str)) (markValues : List ℚ) : List Student :=
  let sorted := List.insertionSort (fun a b => a.1 ≤ b.1)
    ((jsEntries m).map (fun e => (parseIntJS e.1, e.2)))
  let mps := min 4 (markValues.length / sorted.length)
  assignGo mps markValues sorted 0

/-- `extractStudentsByPatterns` of the source. -/
def extractStudentsByPatterns (lines : List Str) : List Student :=
  match findStudentSection lines with
  | none => []
  | some section1 =>
    let info := extractStudentInfoFromSection section1
    if info.isEmpty then []
    else assignMarksToStudents info (extractMarkValues lines)

/-- `/^\s*(\d+)\s/` capture. -/
def leadNumCapture (l : Str) : Option Str :=
  let a := l.dropWhile isWs
  let ds := a.takeWhile Char.isDigit
  if !ds.isEmpty &&
      (match a.drop ds.length with
       | c :: _ => isWs c
       | [] => false) then
    some ds
  else none

/-- `line.replace(/\d+([.,]\d+)?/g, "")`: delete every maximal digit run
together with an immediately following separator-plus-digit-run, left to
right. -/
def stripNumDecTokens : ℕ → Str → Str
  | 0, _ => []
  | _ + 1, [] => []
  | fuel + 1, c :: rest =>
    if c.isDigit then
      let r1 := (c :: rest).dropWhile Char.isDigit
      let r2 :=
        match r1 with
        | s :: d :: r =>
          if (s = '.' || s = ',') && d.isDigit then (d :: r).dropWhile Char.isDigit else r1
        | _ => r1
      stripNumDecTokens fuel r2
    else c :: stripNumDecTokens fuel rest

/-- Per-line loop of `extractBasicStudentData` (`i + 1` look-ahead into the
filtered student-line list for a possible name continuation). -/
def basicGo : List Str → List Student
  | [] => []
  | line :: rest =>
    match leadNumCapture line with
    | none => basicGo rest
    | some ds =>
      let studentNumber := digitsToNat ds
      let stripped := jsTrim (stripNumDecTokens (line.length + 1) line)
      let name1 :=
        if stripped.length < 3 then
          match rest with
          | nxt :: _ => if !startsNumWs nxt then jsTrim nxt else stripped
          | [] => stripped
        else stripped
      let name := if name1.length < 3 then placeholderName (natToStr studentNumber) else name1
      let marks := (scanMarksDec line).filterMap (fun mstr =>
        let v := parseDecQ (commaFix mstr)
        if 0 ≤ v ∧ v ≤ 20 then some v else none)
      { number := (studentNumber : ℚ), name := name, marks := mkSlots marks } :: basicGo rest

/-- `extractBasicStudentData` of the source. -/
def extractBasicStudentData (lines : List Str) : List Student :=
  basicGo (lines.filter startsNumWs)

/-- The table-based strategy's record list (empty when no structure is
detected). -/
def tableRecords (lines : List Str) : List Student :=
  match detectTable lines with
  | some ts => extractStudentData ts
  | none => []

/-- `processOCRWithMultipleApproaches` of the source, after line
normalization: table detection, then pattern-based, then basic extraction,
returning the first non-empty result. -/
def processOCRLines (lines : List Str) : List Student :=
  match detectTable lines with
  | some ts =>
    let s := extractStudentData ts
    if s.length > 0 then s
    else
      let p := extractStudentsByPatterns lines
      if p.length > 0 then p else extractBasicStudentData lines
  | none =>
    let p := extractStudentsByPatterns lines
    if p.length > 0 then p else extractBasicStudentData lines

/-- The full entry point: split into lines, trim, normalize Arabic-Indic
digits, drop empty lines, then run the strategy cascade. -/
def processOCRWithMultipleApproaches (text : Str) : List Student :=
  processOCRLines
    (((splitOnCharGo '\n' [] text).map (fun l => normalizeArabicNumber (jsTrim l))).filter
      (fun l => !l.isEmpty))

/-!  ### Reference (spec-side) definitions

`lev` is the textbook dynamic-programming edit distance (cost 1 for an
insertion, a deletion, or a substitution of unequal characters).  It is proved
below to agree with Mathlib's `levenshtein Levenshtein.defaultCost`. -/

/-- Substitution cost. -/
def cst (x y : Char) : ℕ := if x = y then 0 else 1

/-- Reference Levenshtein edit distance. -/
def lev : Str → Str → ℕ
  | [], ys => ys.length
  | _ :: xs, [] => xs.length + 1
  | x :: xs, y :: ys =>
      min (1 + lev xs (y :: ys)) (min (1 + lev (x :: xs) ys) (cst x y + lev xs ys))
  termination_by a b => a.length + b.length
  decreasing_by all_goals (simp only [List.length_cons]; omega)

/-- The similarity score exactly as the specification words it: `1.0` for
identical strings, `0.9` when the longer contains the shorter, otherwise
`(len(longer) - levenshteinDistance(longer, shorter)) / len(longer)` with the
true Levenshtein distance `lev`. -/
def simSpec (s1 s2 : Str) : ℚ :=
  let longer := if s1.length > s2.length then s1 else s2
  let shorter := if s1.length > s2.length then s2 else s1
  if s1 = s2 then 1
  else if containsSub longer shorter then 9 / 10
  else ((longer.length : ℚ) - (lev longer shorter : ℚ)) / (longer.length : ℚ)

/-- Row predicate of the amended id-match claim: the id cell exists, is
non-empty (JS-truthy), and one digit-stripped string is a suffix of the
other. -/
def rowNumPred (numColumn : ℕ) (clean : Str) (row : List Str) : Bool :=
  match row.get? numColumn with
  | some cell =>
    cell ≠ [] && (endsWithL (cleanDigits cell) clean || endsWithL clean (cleanDigits cell))
  | none => false

/-- Id matching as claim C6 literally words it (no truthiness filter): the
first row from row 1 whose cleaned id cell is a suffix of the cleaned target
or vice versa. -/
def claimMatchC6 (numColumn : ℕ) (studentNum : Str) (values : List (List Str)) : ℤ :=
  let clean := cleanDigits studentNum
  match (values.drop 1).findIdx? (fun row =>
    let cell := row.getD numColumn []
    endsWithL (cleanDigits cell) clean || endsWithL clean (cleanDigits cell)) with
  | some k => (k : ℤ) + 1
  | none => -1


/-- Distance row over extensions of a fixed column prefix `v1` by the
successive prefixes of `v2` (specification counterpart of the cost row). -/
def segFor (u v1 : Str) : Str → List ℕ
  | [] => [lev u v1]
  | y :: v2 => lev u v1 :: segFor u (v1 ++ [y]) v2

/-- Totality of the id comparator used by the distribution sort. -/
instance : IsTotal (ℤ × Str) (fun a b => a.1 ≤ b.1) :=
  ⟨fun a b => Int.le_total a.1 b.1⟩

/-- Transitivity of the id comparator used by the distribution sort. -/
instance : IsTrans (ℤ × Str) (fun a b => a.1 ≤ b.1) :=
  ⟨fun _ _ _ h1 h2 => le_trans h1 h2⟩

/-!  ## Theorems -/

theorem lev_nil_left (ys : Str) : lev [] ys = ys.length := by
  simp [lev]

theorem lev_nil_right (xs : Str) : lev xs [] = xs.length := by
  cases xs <;> simp [lev]

theorem lev_cons_cons (x y : Char) (xs ys : Str) :
    lev (x :: xs) (y :: ys) =
      min (1 + lev xs (y :: ys)) (min (1 + lev (x :: xs) ys) (cst x y + lev xs ys)) := by
  simp [lev]

theorem cst_cases (x y : Char) : cst x y = 0 ∨ cst x y = 1 := by
  unfold cst; split <;> simp

theorem minShuffle (u1 u2 u3 v1 v2 v3 w1 w2 w3 c d : ℕ) :
    min (1 + min (1 + u1) (min (1 + u2) (c + u3)))
        (min (1 + min (1 + v1) (min (1 + v2) (c + v3))) (d + min (1 + w1) (min (1 + w2) (c + w3))))
      =
    min (1 + min (1 + u1) (min (1 + v1) (d + w1)))
        (min (1 + min (1 + u2) (min (1 + v2) (d + w2))) (c + min (1 + u3) (min (1 + v3) (d + w3)))) := by
  simp only [← min_add_add_left]
  refine le_antisymm ?_ ?_ <;> simp only [le_min_iff, min_le_iff] <;> omega

theorem lev_del_le (x : Char) (xs ys : Str) : lev (x :: xs) ys ≤ 1 + lev xs ys := by
  cases ys with
  | nil => simp [lev_nil_right]; omega
  | cons y ys => rw [lev_cons_cons]; exact min_le_left _ _

theorem lev_ins_le (xs : Str) (y : Char) (ys : Str) : lev xs (y :: ys) ≤ 1 + lev xs ys := by
  cases xs with
  | nil => simp [lev_nil_left]; omega
  | cons x xs =>
    rw [lev_cons_cons]
    exact le_trans (min_le_right _ _) (min_le_left _ _)

theorem lev_del_ge (x : Char) (xs ys : Str) : lev xs ys ≤ 1 + lev (x :: xs) ys := by
  induction ys with
  | nil => simp [lev_nil_right]; omega
  | cons y ys ih =>
    rw [lev_cons_cons]
    have h1 := lev_ins_le xs y ys
    have hc := cst_cases x y
    omega

theorem lev_ins_ge (xs : Str) (y : Char) (ys : Str) : lev xs ys ≤ 1 + lev xs (y :: ys) := by
  induction xs with
  | nil => simp [lev_nil_left]; omega
  | cons x xs ih =>
    rw [lev_cons_cons]
    have h1 := lev_del_le x xs ys
    have hc := cst_cases x y
    omega

theorem lev_snoc_snoc (x y : Char) :
    ∀ n (a b : Str), a.length + b.length ≤ n →
      lev (a ++ [x]) (b ++ [y]) =
        min (1 + lev a (b ++ [y])) (min (1 + lev (a ++ [x]) b) (cst x y + lev a b)) := by
  intro n
  induction n with
  | zero =>
    intro a b h
    have ha : a = [] := by cases a <;> simp_all
    have hb : b = [] := by cases b <;> simp_all
    subst ha; subst hb
    simpa using lev_cons_cons x y [] []
  | succ n ih =>
    intro a b h
    match a, b with
    | [], [] =>
      simpa using lev_cons_cons x y [] []
    | [], b0 :: b2 =>
      have e1 := ih [] b2 (by simp only [List.length_cons, List.length_nil] at h ⊢; omega)
      have h1 := lev_cons_cons x b0 [] (b2 ++ [y])
      have h3 := lev_cons_cons x b0 [] b2
      have n1 := lev_nil_left (b0 :: (b2 ++ [y]))
      have n2 := lev_nil_left (b0 :: b2)
      have n3 := lev_nil_left (b2 ++ [y])
      have n4 := lev_nil_left b2
      have hc1 := cst_cases x b0
      have hc2 := cst_cases x y
      simp only [List.cons_append, List.nil_append] at e1 h1 h3 ⊢
      simp only [List.length_cons, List.length_append, List.length_nil] at n1 n2 n3 n4
      omega
    | a0 :: a2, [] =>
      have e1 := ih a2 [] (by simp only [List.length_cons, List.length_nil] at h ⊢; omega)
      have h1 := lev_cons_cons a0 y (a2 ++ [x]) []
      have h3 := lev_cons_cons a0 y a2 []
      have n1 := lev_nil_right (a2 ++ [x])
      have n2 := lev_nil_right a2
      have n3 := lev_nil_right (a0 :: (a2 ++ [x]))
      have n4 := lev_nil_right (a0 :: a2)
      have hc1 := cst_cases a0 y
      have hc2 := cst_cases x y
      simp only [List.cons_append, List.nil_append] at e1 h1 h3 n3 ⊢
      simp only [List.length_cons, List.length_append, List.length_nil] at n1 n2 n3 n4
      omega
    | a0 :: a2, b0 :: b2 =>
      have e1 := ih a2 (b0 :: b2) (by simp only [List.length_cons] at h ⊢; omega)
      have e2 := ih (a0 :: a2) b2 (by simp only [List.length_cons] at h ⊢; omega)
      have e3 := ih a2 b2 (by simp only [List.length_cons] at h ⊢; omega)
      have h1 := lev_cons_cons a0 b0 (a2 ++ [x]) (b2 ++ [y])
      have h2 := lev_cons_cons a0 b0 a2 (b2 ++ [y])
      have h3 := lev_cons_cons a0 b0 (a2 ++ [x]) b2
      have h4 := lev_cons_cons a0 b0 a2 b2
      simp only [List.cons_append] at e1 e2 e3 h1 h2 h3 h4 ⊢
      rw [h1, e1, e2, e3, h2, h3, h4]
      exact minShuffle _ _ _ _ _ _ _ _ _ _ _

theorem lev_reverse : ∀ n (a b : Str), a.length + b.length ≤ n →
    lev a.reverse b.reverse = lev a b := by
  intro n
  induction n with
  | zero =>
    intro a b h
    have ha : a = [] := by cases a <;> simp_all
    have hb : b = [] := by cases b <;> simp_all
    subst ha; subst hb; rfl
  | succ n ih =>
    intro a b h
    match a, b with
    | [], b => simp [lev_nil_left]
    | a0 :: a2, [] => simp [lev_nil_right]
    | a0 :: a2, b0 :: b2 =>
      have hs := lev_snoc_snoc a0 b0 (a2.reverse.length + b2.reverse.length)
        a2.reverse b2.reverse (le_refl _)
      have hc := lev_cons_cons a0 b0 a2 b2
      have e1 := ih a2 (b0 :: b2) (by simp only [List.length_cons] at h ⊢; omega)
      have e2 := ih (a0 :: a2) b2 (by simp only [List.length_cons] at h ⊢; omega)
      have e3 := ih a2 b2 (by simp only [List.length_cons] at h ⊢; omega)
      simp only [List.reverse_cons] at e1 e2 e3 ⊢
      omega

theorem lev_snoc_ins (p q : Str) (y : Char) : lev p q ≤ 1 + lev p (q ++ [y]) := by
  have h1 := lev_ins_ge p.reverse y q.reverse
  have h2 := lev_reverse (p.length + q.length) p q (le_refl _)
  have h3 := lev_reverse (p.length + (q ++ [y]).length) p (q ++ [y]) (le_refl _)
  simp only [List.reverse_append, List.reverse_cons, List.reverse_nil, List.nil_append,
    List.singleton_append] at h3
  omega

theorem lev_snoc_del (p q : Str) (c : Char) : lev p q ≤ 1 + lev (p ++ [c]) q := by
  have h1 := lev_del_ge c p.reverse q.reverse
  have h2 := lev_reverse (p.length + q.length) p q (le_refl _)
  have h3 := lev_reverse ((p ++ [c]).length + q.length) (p ++ [c]) q (le_refl _)
  simp only [List.reverse_append, List.reverse_cons, List.reverse_nil, List.nil_append,
    List.singleton_append] at h3
  omega

theorem lev_snoc_eq (p q : Str) (c y : Char) (hq : c = y) :
    lev (p ++ [c]) (q ++ [y]) = lev p q := by
  have hs := lev_snoc_snoc c y (p.length + q.length) p q (le_refl _)
  have h1 := lev_snoc_ins p q y
  have h2 := lev_snoc_del p q c
  have hcz : cst c y = 0 := by simp [cst, hq]
  omega

theorem segFor_head (u v1 : Str) (v2 : Str) :
    ∃ t, segFor u v1 v2 = lev u v1 :: t := by
  cases v2 <;> exact ⟨_, rfl⟩

theorem edStep_spec (c : Char) :
    ∀ (v2 u v1 : Str),
      edStep c v2 (lev (u ++ [c]) v1) (segFor u v1 v2) = segFor (u ++ [c]) v1 v2 := by
  intro v2
  induction v2 with
  | nil => intro u v1; rfl
  | cons y v2 ih =>
    intro u v1
    obtain ⟨t, ht⟩ := segFor_head u (v1 ++ [y]) v2
    have hnew : (if c = y then lev u v1
        else min (min (lev u v1) (lev (u ++ [c]) v1)) (lev u (v1 ++ [y])) + 1) =
        lev (u ++ [c]) (v1 ++ [y]) := by
      by_cases hcy : c = y
      · subst hcy
        simp only [if_pos]
        exact (lev_snoc_eq u v1 c c rfl).symm
      · simp only [if_neg hcy]
        have hs := lev_snoc_snoc c y (u.length + v1.length) u v1 (le_refl _)
        have hcz : cst c y = 1 := by simp [cst, hcy]
        omega
    show edStep c (y :: v2) (lev (u ++ [c]) v1)
        (lev u v1 :: segFor u (v1 ++ [y]) v2) = segFor (u ++ [c]) v1 (y :: v2)
    rw [ht]
    show lev (u ++ [c]) v1 ::
        edStep c v2 (if c = y then lev u v1
          else min (min (lev u v1) (lev (u ++ [c]) v1)) (lev u (v1 ++ [y])) + 1)
          (lev u (v1 ++ [y]) :: t) = segFor (u ++ [c]) v1 (y :: v2)
    rw [hnew, ← ht, ih u (v1 ++ [y])]
    rfl

theorem segFor_nil (v2 : Str) : ∀ v1,
    segFor [] v1 v2 = (List.range (v2.length + 1)).map (fun k => v1.length + k) := by
  induction v2 with
  | nil => intro v1; simp [segFor, lev_nil_left, List.range_succ]
  | cons y v2 ih =>
    intro v1
    show lev [] v1 :: segFor [] (v1 ++ [y]) v2 = _
    rw [ih (v1 ++ [y]), lev_nil_left, List.length_cons]
    nth_rewrite 2 [List.range_succ_eq_map]
    rw [List.map_cons, List.map_map]
    have hf : (fun k => List.length (v1 ++ [y]) + k) = ((fun k => List.length v1 + k) ∘ Nat.succ) := by
      funext k
      simp only [Function.comp_apply, List.length_append, List.length_cons, List.length_nil]
      omega
    rw [hf]
    simp

theorem segFor_getD (v2 : Str) : ∀ u v1,
    (segFor u v1 v2).getD v2.length 0 = lev u (v1 ++ v2) := by
  induction v2 with
  | nil => intro u v1; simp [segFor]
  | cons y v2 ih =>
    intro u v1
    show (lev u v1 :: segFor u (v1 ++ [y]) v2).getD (v2.length + 1) 0 = _
    rw [List.getD_cons_succ, ih u (v1 ++ [y])]
    congr 1
    simp

theorem edLoop_spec (s2 : Str) : ∀ (rest u : Str),
    edLoop s2 rest u.length (segFor u [] s2) = segFor (u ++ rest) [] s2 := by
  intro rest
  induction rest with
  | nil => intro u; simp [edLoop]
  | cons c cs ih =>
    intro u
    show edLoop s2 cs (u.length + 1) (edStep c s2 (u.length + 1) (segFor u [] s2)) = _
    have hl : lev (u ++ [c]) [] = u.length + 1 := by
      rw [lev_nil_right]; simp
    have h2 := edStep_spec c s2 u []
    rw [hl] at h2
    rw [h2]
    have h3 := ih (u ++ [c])
    simp only [List.length_append, List.length_cons, List.length_nil,
      List.append_assoc, List.singleton_append] at h3
    exact h3

theorem editDistance_eq_lev (s1 s2 : Str) : editDistance s1 s2 = lev s1 s2 := by
  unfold editDistance
  have h0 : List.range (s2.length + 1) = segFor [] [] s2 := by
    rw [segFor_nil]; simp
  rw [h0]
  have h1 := edLoop_spec s2 s1 []
  simp only [List.length_nil, List.nil_append] at h1
  rw [h1, segFor_getD]
  simp [lev_nil_left]

theorem lev_eq_levenshtein : ∀ n (a b : Str), a.length + b.length ≤ n →
    lev a b = levenshtein Levenshtein.defaultCost a b := by
  intro n
  induction n with
  | zero =>
    intro a b h
    have ha : a = [] := by cases a <;> simp_all
    have hb : b = [] := by cases b <;> simp_all
    subst ha; subst hb
    simp [lev_nil_left]
  | succ n ih =>
    intro a b h
    match a, b with
    | [], [] => simp [lev_nil_left]
    | [], b0 :: b2 =>
      rw [lev_nil_left, levenshtein_nil_cons,
        ← ih [] b2 (by simp only [List.length_cons, List.length_nil] at h ⊢; omega),
        lev_nil_left]
      simp only [Levenshtein.defaultCost_insert, List.length_cons]
      omega
    | a0 :: a2, [] =>
      rw [lev_nil_right, levenshtein_cons_nil,
        ← ih a2 [] (by simp only [List.length_cons, List.length_nil] at h ⊢; omega),
        lev_nil_right]
      simp only [Levenshtein.defaultCost_delete, List.length_nil, List.length_cons]
      omega
    | a0 :: a2, b0 :: b2 =>
      rw [lev_cons_cons, levenshtein_cons_cons,
        ← ih a2 (b0 :: b2) (by simp only [List.length_cons] at h ⊢; omega),
        ← ih (a0 :: a2) b2 (by simp only [List.length_cons] at h ⊢; omega),
        ← ih a2 b2 (by simp only [List.length_cons] at h ⊢; omega)]
      simp [cst, Nat.add_comm]

theorem editDistance_test1 : editDistance "".data "abc".data = 3 := by decide

theorem editDistance_test2 : editDistance "kitten".data "sitting".data = 3 := by decide

/-- Claim C4: `editDistance` computes the exact Levenshtein distance (stated
against Mathlib's unit-cost `levenshtein`), with the classic test vectors. -/
theorem claim_C4_editDistance :
    (∀ s1 s2 : Str, editDistance s1 s2 = levenshtein Levenshtein.defaultCost s1 s2) ∧
      editDistance "".data "abc".data = 3 ∧ editDistance "kitten".data "sitting".data = 3 :=
  ⟨fun s1 s2 => (editDistance_eq_lev s1 s2).trans
      (lev_eq_levenshtein (s1.length + s2.length) s1 s2 (le_refl _)),
    by decide, by decide⟩

theorem scanLoop_spec (p : List Str → Bool) :
    ∀ (l : List (List Str)) (i : ℕ),
      scanLoop p l i =
        (match List.findIdx? p l i with
         | some k => (k : ℤ)
         | none => -1) := by
  intro l
  induction l with
  | nil => intro i; rfl
  | cons r rest ih =>
    intro i
    show (if p r then (i : ℤ) else scanLoop p rest (i + 1)) = _
    rw [List.findIdx?_cons]
    by_cases h : p r
    · simp [h]
    · simp only [h, if_neg, Bool.false_eq_true, ite_false]
      exact ih (i + 1)

theorem calculateSimilarity_eq_simSpec (s1 s2 : Str) :
    calculateSimilarity s1 s2 = simSpec s1 s2 := by
  simp only [calculateSimilarity, simSpec]
  by_cases h : s1 = s2
  · simp [h]
  · simp only [if_neg h]
    by_cases h0 : (if s1.length > s2.length then s1 else s2).length = 0
    · exfalso
      by_cases hl : s1.length > s2.length
      · rw [if_pos hl] at h0; omega
      · rw [if_neg hl] at h0
        simp only [Nat.not_lt] at hl
        have h1 : s1.length = 0 := by omega
        have e1 : s1 = [] := List.length_eq_zero.mp h1
        have e2 : s2 = [] := List.length_eq_zero.mp h0
        exact h (e1.trans e2.symm)
    · rw [if_neg h0, editDistance_eq_lev]

/-- Claim C5: the similarity score is exactly the specified three-case
formula (with the true Levenshtein distance), and name matching returns the
first roster row from row 1 whose normalized-name similarity strictly exceeds
0.70, else -1 (a row lacking the name column cannot qualify). -/
theorem claim_C5_similarity :
    (∀ s1 s2 : Str, calculateSimilarity s1 s2 = simSpec s1 s2) ∧
      (∀ (nameColumn : ℕ) (studentName : Str) (values : List (List Str)),
        findStudentRowByName nameColumn studentName values =
          (match List.findIdx? (fun row =>
              match row.get? nameColumn with
              | some cell =>
                decide (simSpec (normalizeArabicText studentName) (normalizeArabicText cell) > 7 / 10)
              | none => false) (values.drop 1) 1 with
           | some k => (k : ℤ)
           | none => -1)) := by
  refine ⟨calculateSimilarity_eq_simSpec, ?_⟩
  intro nameColumn studentName values
  show scanLoop _ (values.drop 1) 1 = _
  rw [scanLoop_spec]
  have hp : (fun row : List Str =>
      match row.get? nameColumn with
      | some cell => compareNames (normalizeArabicText studentName) (normalizeArabicText cell)
      | none => false) =
      (fun row : List Str =>
      match row.get? nameColumn with
      | some cell =>
        decide (simSpec (normalizeArabicText studentName) (normalizeArabicText cell) > 7 / 10)
      | none => false) := by
    funext row
    cases row.get? nameColumn with
    | none => rfl
    | some cell =>
      show compareNames _ _ = _
      rw [compareNames, calculateSimilarity_eq_simSpec]
  rw [hp]

/-- Claim C6 (amended): id matching strips non-digits from both sides and
returns the first row from row 1 whose id cell exists, is non-empty, and has
one cleaned string a suffix of the other; rows with an empty id cell are
skipped.  Target `123456789` matches roster cell `G000123456789`. -/
theorem claim_C6_amended :
    (∀ (numColumn : ℕ) (studentNum : Str) (values : List (List Str)),
      findStudentRowByNumber numColumn studentNum values =
        (match List.findIdx? (rowNumPred numColumn (cleanDigits studentNum)) (values.drop 1) 1 with
         | some k => (k : ℤ)
         | none => -1)) ∧
      findStudentRowByNumber 0 "123456789".data [["h".data], ["G000123456789".data]] = 1 := by
  constructor
  · intro numColumn studentNum values
    show scanLoop _ (values.drop 1) 1 = _
    rw [scanLoop_spec]
    rfl
  · decide

/-- Claim C6 counterexample: with an empty id cell in row 1, the claim's
unguarded suffix rule selects row 1 (the empty cleaned cell is a suffix of
every target), but the code skips falsy cells and returns row 2. -/
theorem claim_C6_counterexample :
    claimMatchC6 0 "123456789".data [["h".data], [[]], ["G000123456789".data]] = 1 ∧
      findStudentRowByNumber 0 "123456789".data [["h".data], [[]], ["G000123456789".data]] = 2 := by
  constructor <;> decide

/-- Claim C10: with a digit-free target the cleaned target is empty, so every
non-empty (truthy) id cell matches by the empty-suffix rule; the scan
therefore returns the first row at or after row 1 whose id cell exists and is
non-empty, and -1 exactly when there is no such row. -/
theorem claim_C10_emptyTarget (numColumn : ℕ) (studentNum : Str) (values : List (List Str))
    (h : cleanDigits studentNum = []) :
    findStudentRowByNumber numColumn studentNum values =
      (match List.findIdx? (fun row =>
          match row.get? numColumn with
          | some cell => cell ≠ []
          | none => false) (values.drop 1) 1 with
       | some k => (k : ℤ)
       | none => -1) := by
  show scanLoop _ (values.drop 1) 1 = _
  rw [scanLoop_spec]
  have hp : (fun row : List Str =>
      match row.get? numColumn with
      | some cell =>
        cell ≠ [] &&
          (endsWithL (cleanDigits cell) (cleanDigits studentNum) ||
            endsWithL (cleanDigits studentNum) (cleanDigits cell))
      | none => false) =
      (fun row : List Str =>
      match row.get? numColumn with
      | some cell => cell ≠ []
      | none => false) := by
    funext row
    cases row.get? numColumn with
    | none => rfl
    | some cell =>
      show (cell ≠ [] && _) = _
      rw [h]
      have he : endsWithL (cleanDigits cell) [] = true := by
        unfold endsWithL
        rw [List.reverse_nil]
        cases (cleanDigits cell).reverse <;> rfl
      rw [he]
      simp
  rw [hp]

theorem claim_C10_witness :
    findStudentRowByNumber 0 "abc".data [["x".data], [[]], ["77".data]] = 2 ∧
      cleanDigits "abc".data = [] := by
  constructor
  · rw [claim_C10_emptyTarget 0 "abc".data [["x".data], [[]], ["77".data]] rfl]
    decide
  · rfl

/-- Claim C7: the normalization pre-pass maps the ten Arabic-Indic digits to
ASCII (`١٢.٥٠` becomes `12.50`) but leaves every other native digit — here
the Eastern Arabic-Indic (Persian) digit `۵` (U+06F5), which its own comment
says it converts — unchanged. -/
theorem claim_C7_normalizeDigits :
    normalizeArabicNumber "١٢.٥٠".data = "12.50".data ∧
      normalizeArabicNumber "۵".data = "۵".data := by
  constructor <;> decide

theorem parseNumericValue_isSome (t : Str) :
    (parseNumericValue t).isSome =
      (plainNumShape (cleanNum t) || (findPair (cleanNum t)).isSome) := by
  unfold parseNumericValue
  by_cases h : plainNumShape (cleanNum t)
  · simp [h]
  · simp only [h, Bool.false_or, if_neg, Bool.false_eq_true]
    cases findPair (cleanNum t) with
    | none => rfl
    | some pr => cases pr; rfl

/-- Claim C8 (amended): a cell produced by the grid builder is classified
numeric iff its cleaned text matches the plain integer/decimal pattern or
contains an embedded 1-2-digit decimal pair (the first such pair supplies the
value); cells with neither are non-numeric with a null value. -/
theorem claim_C8_amended :
    ∀ (line : Str) (rowIndex : ℕ) (cell : TableCell), cell ∈ parseLine line rowIndex →
      cell.isNumeric = (plainNumShape (cleanNum cell.text) || (findPair (cleanNum cell.text)).isSome) ∧
        (cell.isNumeric = false → cell.value = none) := by
  intro line rowIndex cell hmem
  simp only [parseLine] at hmem
  rw [List.mem_filterMap] at hmem
  obtain ⟨p, _, hfp⟩ := hmem
  by_cases hemp : (jsTrim p.2).isEmpty
  · rw [if_pos hemp] at hfp
    exact absurd hfp (by simp)
  · rw [if_neg hemp] at hfp
    injection hfp with hfp
    subst hfp
    refine ⟨parseNumericValue_isSome (jsTrim p.2), ?_⟩
    intro hfalse
    have : (parseNumericValue (jsTrim p.2)).isSome = false := hfalse
    exact Option.not_isSome_iff_eq_none.mp (by simp [this])

/-- Claim C8 counterexample: the segment `اسم12.50` of the line
`1  اسم12.50` does not match the plain integer/decimal pattern, yet the cell
built from it is classified numeric (value 12.50 from the embedded pair). -/
theorem claim_C8_counterexample :
    ((parseLine "1  اسم12.50".data 0).get? 1).map TableCell.isNumeric = some true ∧
      plainNumShape (cleanNum "اسم12.50".data) = false := by
  constructor <;> decide

theorem claim_C8_witness :
    let cell0 : TableCell :=
      { text := "اسم12.50".data, row := 0, col := 1, isNumeric := true, value := some (Rat.divInt 25 2) }
    cell0.isNumeric =
        (plainNumShape (cleanNum cell0.text) || (findPair (cleanNum cell0.text)).isSome) ∧
      (cell0.isNumeric = false → cell0.value = none) :=
  claim_C8_amended "1  اسم12.50".data 0 _ (List.get?_mem (n := 1) (by decide))

/-- Claim C3: the coordinator returns exactly one strategy's output — the
table-based records when non-empty, else the pattern-based records when
non-empty, else the basic records; no merging occurs. -/
theorem claim_C3_coordinator :
    ∀ lines : List Str,
      processOCRLines lines =
        (if tableRecords lines ≠ [] then tableRecords lines
         else if extractStudentsByPatterns lines ≠ [] then extractStudentsByPatterns lines
         else extractBasicStudentData lines) := by
  intro lines
  unfold processOCRLines tableRecords
  cases hdt : detectTable lines with
  | none =>
    by_cases hp : extractStudentsByPatterns lines = []
    · simp [hp]
    · simp [hp, List.length_pos.mpr hp]
  | some ts =>
    by_cases hs : extractStudentData ts = []
    · by_cases hp : extractStudentsByPatterns lines = [] <;>
        simp [hs, hp, List.length_pos]
    · simp [hs, List.length_pos.mpr hs]

/-- Claim C1 counterexample: the table-based strategy assigns the numeric
cell value without any range check, so the input below produces a record with
`fard1 = 25`, outside `[0, 20]`. -/
theorem claim_C1_counterexample :
    (tableRecords ["رقم  اسم  الفرض".data, "1  احمد  25".data]).map (fun s => s.marks.fard1) =
        [some 25] ∧
      ¬ ((25 : ℚ) ≤ 20) := by
  constructor <;> decide

theorem extractMarkValues_range (lines : List Str) :
    ∀ v ∈ extractMarkValues lines, 0 ≤ v ∧ v ≤ 20 := by
  induction lines with
  | nil => intro v hv; simp [extractMarkValues] at hv
  | cons l ls ih =>
    intro v hv
    by_cases hskip : skipMetaLine l
    · rw [show extractMarkValues (l :: ls) = extractMarkValues ls by
        simp [extractMarkValues, hskip]] at hv
      exact ih v hv
    · rw [show extractMarkValues (l :: ls) = lineMarkValues l ++ extractMarkValues ls by
        simp [extractMarkValues, hskip]] at hv
      rcases List.mem_append.mp hv with h | h
      · rw [lineMarkValues, List.mem_filterMap] at h
        obtain ⟨m, _, hm⟩ := h
        by_cases hr : 0 ≤ parseDecQ (commaFix m) ∧ parseDecQ (commaFix m) ≤ 20
        · rw [if_pos hr] at hm
          injection hm with hm
          exact hm ▸ hr
        · rw [if_neg hr] at hm
          exact absurd hm (by simp)
      · exact ih v h

theorem assignGo_mem_slots (mps : ℕ) (marks : List ℚ) :
    ∀ (es : List (ℤ × Str)) (idx : ℕ) (s : Student), s ∈ assignGo mps marks es idx →
      ∀ v, (s.marks.fard1 = some v ∨ s.marks.fard2 = some v ∨ s.marks.fard3 = some v ∨
            s.marks.activities = some v) → v ∈ marks := by
  intro es
  induction es with
  | nil => intro idx s hs; simp [assignGo] at hs
  | cons e rest ih =>
    intro idx s hs v hv
    rcases List.mem_cons.mp hs with h | h
    · have hsub : ∀ (k : ℕ) (w : ℚ), ((marks.drop idx).take mps).get? k = some w → w ∈ marks := by
        intro k w hw
        exact List.drop_subset idx marks (List.take_subset _ _ (List.get?_mem hw))
      subst h
      rcases hv with h1 | h1 | h1 | h1
      · exact hsub 0 v (by simpa [mkSlots] using h1)
      · exact hsub 1 v (by simpa [mkSlots] using h1)
      · exact hsub 2 v (by simpa [mkSlots] using h1)
      · exact hsub 3 v (by simpa [mkSlots] using h1)
    · exact ih _ s h v hv

theorem basicGo_range :
    ∀ (ls : List Str) (s : Student), s ∈ basicGo ls →
      ∀ v, (s.marks.fard1 = some v ∨ s.marks.fard2 = some v ∨ s.marks.fard3 = some v ∨
            s.marks.activities = some v) → 0 ≤ v ∧ v ≤ 20 := by
  intro ls
  induction ls with
  | nil => intro s hs; simp [basicGo] at hs
  | cons line rest ih =>
    intro s hs v hv
    cases hlc : leadNumCapture line with
    | none =>
      simp only [basicGo, hlc] at hs
      exact ih s hs v hv
    | some ds =>
      simp only [basicGo, hlc] at hs
      rcases List.mem_cons.mp hs with h | h
      · have hget : ∀ (k : ℕ) (w : ℚ),
            ((scanMarksDec line).filterMap (fun mstr =>
              let v2 := parseDecQ (commaFix mstr)
              if 0 ≤ v2 ∧ v2 ≤ 20 then some v2 else none)).get? k = some w →
            0 ≤ w ∧ w ≤ 20 := by
          intro k w hw
          have hmem := List.get?_mem hw
          rw [List.mem_filterMap] at hmem
          obtain ⟨m, _, hm⟩ := hmem
          by_cases hr : 0 ≤ parseDecQ (commaFix m) ∧ parseDecQ (commaFix m) ≤ 20
          · rw [if_pos hr] at hm
            injection hm with hm
            exact hm ▸ hr
          · rw [if_neg hr] at hm
            exact absurd hm (by simp)
        subst h
        rcases hv with h1 | h1 | h1 | h1
        · exact hget 0 v (by simpa [mkSlots] using h1)
        · exact hget 1 v (by simpa [mkSlots] using h1)
        · exact hget 2 v (by simpa [mkSlots] using h1)
        · exact hget 3 v (by simpa [mkSlots] using h1)
      · exact ih s h v hv

/-- Claim C1 (amended): every non-null mark slot of a record produced by the
pattern-based or basic strategy lies in `[0, 20]`; the table-based strategy
performs no range check (see the counterexample). -/
theorem claim_C1_amended :
    ∀ (lines : List Str) (s : Student),
      (s ∈ extractStudentsByPatterns lines ∨ s ∈ extractBasicStudentData lines) →
      ∀ v, (s.marks.fard1 = some v ∨ s.marks.fard2 = some v ∨ s.marks.fard3 = some v ∨
            s.marks.activities = some v) → 0 ≤ v ∧ v ≤ 20 := by
  intro lines s hs v hv
  rcases hs with hs | hs
  · unfold extractStudentsByPatterns at hs
    split at hs
    · simp at hs
    · next sec heq =>
        by_cases hinfo : (extractStudentInfoFromSection sec).isEmpty
        · simp [hinfo] at hs
        · simp only [Bool.not_eq_true] at hinfo
          simp only [hinfo, Bool.false_eq_true, if_false] at hs
          unfold assignMarksToStudents at hs
          exact extractMarkValues_range lines v (assignGo_mem_slots _ _ _ _ s hs v hv)
  · unfold extractBasicStudentData at hs
    exact basicGo_range _ s hs v hv

theorem claim_C1_witness : (0 : ℚ) ≤ 1 ∧ (1 : ℚ) ≤ 20 :=
  claim_C1_amended ["1 احمد".data, "12.5".data]
    { number := 1, name := "احمد".data,
      marks := { fard1 := some 1, fard2 := some (Rat.divInt 25 2),
                 fard3 := none, activities := none } }
    (Or.inl (List.get?_mem (n := 0) (by decide)))
    1 (Or.inl rfl)

theorem filter_length_split {α : Type} (p : α → Bool) (l : List α) :
    (l.filter p).length + (l.filter (fun a => !p a)).length = l.length := by
  induction l with
  | nil => rfl
  | cons a t ih =>
    by_cases h : p a <;> simp [h, List.filter_cons] <;> omega

theorem jsEntries_length (m : List (Str × Str)) : (jsEntries m).length = m.length := by
  unfold jsEntries
  rw [List.length_append, List.length_insertionSort]
  exact filter_length_split _ m

theorem assignGo_chunks (mps : ℕ) (marks : List ℚ) :
    ∀ (es : List (ℤ × Str)) (k : ℕ),
      (k + es.length) * mps ≤ marks.length →
      ((assignGo mps marks es (k * mps)).length = es.length ∧
        ∀ (j : ℕ) (e : ℤ × Str), es.get? j = some e →
          (assignGo mps marks es (k * mps)).get? j = some
            { number := (e.1 : ℚ), name := e.2,
              marks :=
                { fard1 := if 0 < mps then marks.get? ((k + j) * mps) else none,
                  fard2 := if 1 < mps then marks.get? ((k + j) * mps + 1) else none,
                  fard3 := if 2 < mps then marks.get? ((k + j) * mps + 2) else none,
                  activities := if 3 < mps then marks.get? ((k + j) * mps + 3) else none } }) := by
  intro es
  induction es with
  | nil =>
    intro k hb
    refine ⟨rfl, ?_⟩
    intro j e he
    simp at he
  | cons e rest ih =>
    intro k hb
    have hprod1 : (k + (rest.length + 1)) * mps = k * mps + rest.length * mps + mps := by
      ring
    have hkb : k * mps + mps ≤ marks.length := by
      simp only [List.length_cons] at hb
      rw [hprod1] at hb
      omega
    have hsm : ((marks.drop (k * mps)).take mps).length = mps := by
      rw [List.length_take, List.length_drop]
      omega
    have hslot : ∀ x : ℕ, ((marks.drop (k * mps)).take mps).get? x =
        (if x < mps then marks.get? (k * mps + x) else none) := by
      intro x
      by_cases hx : x < mps
      · rw [if_pos hx, List.get?_take hx, List.get?_drop]
      · rw [if_neg hx, List.get?_eq_none.mpr]
        omega
    have hstep : assignGo mps marks (e :: rest) (k * mps) =
        { number := (e.1 : ℚ), name := e.2,
          marks := mkSlots ((marks.drop (k * mps)).take mps) } ::
          assignGo mps marks rest ((k + 1) * mps) := by
      show _ = _ :: assignGo mps marks rest ((k + 1) * mps)
      rw [show (k + 1) * mps = k * mps + ((marks.drop (k * mps)).take mps).length by
        rw [hsm]; ring]
      rfl
    have hrest := ih (k + 1) (by
      have hprod2 : (k + 1 + rest.length) * mps = k * mps + rest.length * mps + mps := by ring
      simp only [List.length_cons] at hb
      rw [hprod1] at hb
      rw [hprod2]
      omega)
    constructor
    · rw [hstep]
      simp only [List.length_cons, hrest.1]
    · intro j e2 he2
      match j with
      | 0 =>
        simp only [List.get?_cons_zero] at he2
        injection he2 with he2
        subst he2
        rw [hstep]
        simp only [List.get?_cons_zero, mkSlots, hslot]
        simp [Nat.add_zero]
      | j + 1 =>
        simp only [List.get?_cons_succ] at he2
        rw [hstep]
        simp only [List.get?_cons_succ]
        rw [hrest.2 j e2 he2]
        have harith0 : (k + 1 + j) * mps = (k + (j + 1)) * mps := by ring
        rw [harith0]

/-- Claim C9: the distribution stage sorts the (id, name) pairs ascending by
numeric id (stable, on the JS enumeration order) and hands each student, in
that order, the next `min 4 (total / count)` harvested values positionally
into `fard1..activities`, leaving the remaining slots null and discarding
every harvested value beyond `count * marksPerStudent`. -/
theorem claim_C9_distribution (m : List (Str × Str)) (marks : List ℚ)
    (_hne : m ≠ [])
    (_hkeys : ∀ p ∈ m, p.1 ≠ [] ∧ p.1.all Char.isDigit = true) :
    List.Sorted (fun a b => a.1 ≤ b.1)
        (List.insertionSort (fun a b => a.1 ≤ b.1)
          ((jsEntries m).map (fun e => (parseIntJS e.1, e.2)))) ∧
      (assignMarksToStudents m marks).length = m.length ∧
      ∀ (j : ℕ) (e : ℤ × Str),
        (List.insertionSort (fun a b => a.1 ≤ b.1)
            ((jsEntries m).map (fun e2 => (parseIntJS e2.1, e2.2)))).get? j = some e →
        (assignMarksToStudents m marks).get? j = some
          { number := (e.1 : ℚ), name := e.2,
            marks :=
              { fard1 := if 0 < min 4 (marks.length / m.length) then
                  marks.get? (j * min 4 (marks.length / m.length)) else none,
                fard2 := if 1 < min 4 (marks.length / m.length) then
                  marks.get? (j * min 4 (marks.length / m.length) + 1) else none,
                fard3 := if 2 < min 4 (marks.length / m.length) then
                  marks.get? (j * min 4 (marks.length / m.length) + 2) else none,
                activities := if 3 < min 4 (marks.length / m.length) then
                  marks.get? (j * min 4 (marks.length / m.length) + 3) else none } } := by
  have hslen : (List.insertionSort (fun a b : ℤ × Str => a.1 ≤ b.1)
      ((jsEntries m).map (fun e => (parseIntJS e.1, e.2)))).length = m.length := by
    rw [List.length_insertionSort, List.length_map, jsEntries_length]
  refine ⟨List.sorted_insertionSort _ _, ?_, ?_⟩
  all_goals
    have hbound : (0 + (List.insertionSort (fun a b : ℤ × Str => a.1 ≤ b.1)
        ((jsEntries m).map (fun e => (parseIntJS e.1, e.2)))).length) *
          min 4 (marks.length / m.length) ≤ marks.length := by
      rw [Nat.zero_add, hslen]
      calc m.length * min 4 (marks.length / m.length)
          ≤ m.length * (marks.length / m.length) :=
            Nat.mul_le_mul_left _ (min_le_right _ _)
        _ = (marks.length / m.length) * m.length := Nat.mul_comm _ _
        _ ≤ marks.length := Nat.div_mul_le_self _ _
    have hgo := assignGo_chunks (min 4 (marks.length / m.length)) marks
      (List.insertionSort (fun a b : ℤ × Str => a.1 ≤ b.1)
        ((jsEntries m).map (fun e => (parseIntJS e.1, e.2)))) 0 hbound
    rw [Nat.zero_mul] at hgo
    have hassign : assignMarksToStudents m marks =
        assignGo (min 4 (marks.length /
            (List.insertionSort (fun a b : ℤ × Str => a.1 ≤ b.1)
              ((jsEntries m).map (fun e => (parseIntJS e.1, e.2)))).length)) marks
          (List.insertionSort (fun a b : ℤ × Str => a.1 ≤ b.1)
            ((jsEntries m).map (fun e => (parseIntJS e.1, e.2)))) 0 := rfl
    rw [hslen] at hassign
  · rw [hassign, hgo.1, hslen]
  · intro j e he
    rw [hassign, hgo.2 j e he]
    simp only [Nat.zero_add]

theorem claim_C9_witness :
    (assignMarksToStudents [("2".data, "ب".data), ("1".data, "ا".data)] [1, 2, 3]).get? 0 =
      some { number := 1, name := "ا".data,
             marks := { fard1 := some 1, fard2 := none, fard3 := none, activities := none } } := by
  have h := (claim_C9_distribution [("2".data, "ب".data), ("1".data, "ا".data)]
      ([1, 2, 3] : List ℚ) (by simp) (by decide)).2.2 0 ((1 : ℤ), "ا".data) (by decide)
  rw [h]
  decide

theorem foldl_opt_mem {step : Option ℕ → ℕ → Option ℕ}
    (hstep : ∀ b x i, step b x = some i → b = some i ∨ x = i) :
    ∀ (l : List ℕ) (b : Option ℕ) (i : ℕ), l.foldl step b = some i → b = some i ∨ i ∈ l := by
  intro l
  induction l with
  | nil => intro b i h; exact Or.inl h
  | cons x t ih =>
    intro b i h
    rcases ih (step b x) i h with h1 | h1
    · rcases hstep b x i h1 with h2 | h2
      · exact Or.inl h2
      · exact Or.inr (h2 ▸ List.mem_cons_self x t)
    · exact Or.inr (List.mem_cons_of_mem x h1)

theorem argmaxPos_lt (f : ℕ → ℕ) (n i : ℕ) (h : argmaxPos f n = some i) : i < n := by
  unfold argmaxPos at h
  have hs : ∀ (b : Option ℕ) (x i2 : ℕ),
      (if f x > 0 && (match b with | none => true | some b2 => f x > f b2) then some x else b) =
        some i2 → b = some i2 ∨ x = i2 := by
    intro b x i2 hbx
    split at hbx
    · exact Or.inr (Option.some.inj hbx)
    · exact Or.inl hbx
  rcases foldl_opt_mem hs (List.range n) none i h with h1 | h1
  · exact absurd h1 (by simp)
  · exact List.mem_range.mp h1

theorem argmaxPosExcl_lt (f : ℕ → ℕ) (n excl i : ℕ) (h : argmaxPosExcl f n excl = some i) :
    i < n := by
  unfold argmaxPosExcl at h
  have hs : ∀ (b : Option ℕ) (x i2 : ℕ),
      (if f x > 0 && x ≠ excl && (match b with | none => true | some b2 => f x > f b2) then some x
        else b) = some i2 → b = some i2 ∨ x = i2 := by
    intro b x i2 hbx
    split at hbx
    · exact Or.inr (Option.some.inj hbx)
    · exact Or.inl hbx
  rcases foldl_opt_mem hs (List.range n) none i h with h1 | h1
  · exact absurd h1 (by simp)
  · exact List.mem_range.mp h1

theorem enum_filter_fst_lt (l : List TableCell) (p : TableCell → Bool) (i : ℕ)
    (h : i ∈ (l.enum.filter (fun q => p q.2)).map Prod.fst) : i < l.length := by
  rw [List.mem_map] at h
  obtain ⟨q, hq, rfl⟩ := h
  have hq2 := (List.mem_filter.mp hq).1
  have : (q.1, q.2) ∈ l.enum := by simpa using hq2
  exact (List.mem_enum this).1

theorem lastIdxWhere_lt (l : List TableCell) (p : TableCell → Bool) (i : ℕ)
    (h : lastIdxWhere l p = some i) : i < l.length := by
  unfold lastIdxWhere at h
  have hmem : i ∈ (l.enum.filter (fun q => p q.2)).map Prod.fst := by
    obtain ⟨hne, heq⟩ := List.mem_getLast?_eq_getLast (show i ∈ _ from h)
    exact heq ▸ List.getLast_mem hne
  exact enum_filter_fst_lt l p i hmem

theorem headerMarkCols_lt (grid : List (List TableCell)) (hr : ℕ) :
    ∀ c ∈ headerMarkCols grid hr, c < (grid.getD hr []).length := by
  intro c hc
  unfold headerMarkCols at hc
  exact enum_filter_fst_lt _ (fun c2 => isMarkHeader (toLowerJS c2.text)) c hc

theorem getD_row_length (grid : List (List TableCell)) (hr : ℕ)
    (hrect : ∀ row ∈ grid, row.length = (grid.headD []).length)
    (hhr : hr < grid.length) :
    (grid.getD hr []).length = (grid.headD []).length := by
  have hmem : grid.getD hr [] ∈ grid := by
    rw [List.getD_eq_get?, List.get?_eq_get hhr]
    exact List.get_mem grid hr hhr
  exact hrect _ hmem

theorem findHeaderRow_lt (grid : List (List TableCell)) (hne : grid ≠ []) :
    findHeaderRow grid < grid.length := by
  unfold findHeaderRow
  cases hf : (List.range (min 5 grid.length)).find? (fun r =>
      headerIndicators.any (fun kw =>
        containsSub (rowJoinedText (grid.getD r [])) (toLowerJS kw))) with
  | none =>
    simp only [Option.getD_none]
    exact List.length_pos.mpr hne
  | some r =>
    simp only [Option.getD_some]
    have := List.mem_range.mp (List.mem_of_find?_eq_some hf)
    omega

theorem identifyColumnsRaw_id_lt (grid : List (List TableCell)) (hr : ℕ)
    (hcol : 0 < (grid.headD []).length)
    (hrect : ∀ row ∈ grid, row.length = (grid.headD []).length)
    (hhr : hr < grid.length) :
    ∀ i, (identifyColumnsRaw grid hr).1 = some i → i < (grid.headD []).length := by
  intro i hi
  have hcells := getD_row_length grid hr hrect hhr
  cases hidH : headerIdCol grid hr with
  | some j =>
    have hj : j < (grid.headD []).length := hcells ▸ lastIdxWhere_lt _ _ j hidH
    simp only [identifyColumnsRaw] at hi
    rw [hidH] at hi
    split at hi
    · simp only at hi
      injection hi with hi
      omega
    · simp only at hi
      injection hi with hi
      omega
  | none =>
    simp only [identifyColumnsRaw] at hi
    rw [hidH] at hi
    simp only [Option.isNone_none, Bool.true_or, if_true] at hi
    injection hi with hi
    cases ha : argmaxPos (fun col => countColP (grid.drop (hr + 1)) col
        (fun c => hasIdPattern c.text)) (grid.headD []).length with
    | none => rw [ha] at hi; simp at hi; omega
    | some j =>
      rw [ha] at hi
      simp at hi
      have := argmaxPos_lt _ _ j ha
      omega

theorem identifyColumnsRaw_marks_lt (grid : List (List TableCell)) (hr : ℕ)
    (hrect : ∀ row ∈ grid, row.length = (grid.headD []).length)
    (hhr : hr < grid.length) :
    ∀ c ∈ (identifyColumnsRaw grid hr).2.2, c < (grid.headD []).length := by
  intro c hc
  have hcells := getD_row_length grid hr hrect hhr
  have hmk : ∀ c2 ∈ headerMarkCols grid hr, c2 < (grid.headD []).length := by
    intro c2 h2
    have := headerMarkCols_lt grid hr c2 h2
    omega
  simp only [identifyColumnsRaw] at hc
  split at hc
  · simp only at hc
    split at hc
    · split at hc
      · exact List.mem_range.mp (List.mem_of_mem_filter hc)
      · exact List.mem_range.mp (List.mem_of_mem_filter hc)
    · exact hmk c hc
  · exact hmk c hc

theorem identifyColumnsRaw_id_default (grid : List (List TableCell)) (hr : ℕ)
    (hid0 : headerIdCol grid hr = none)
    (harg : argmaxPos (fun col => countColP (grid.drop (hr + 1)) col
      (fun c => hasIdPattern c.text)) (grid.headD []).length = none) :
    (identifyColumnsRaw grid hr).1 = some 0 := by
  simp only [identifyColumnsRaw]
  rw [hid0]
  simp only [Option.isNone_none, Bool.true_or, if_true]
  rw [harg]
  rfl

theorem identifyColumnsRaw_id_some (grid : List (List TableCell)) (hr : ℕ) :
    ∃ i, (identifyColumnsRaw grid hr).1 = some i := by
  simp only [identifyColumnsRaw]
  cases hid : headerIdCol grid hr with
  | some j =>
    split
    · exact ⟨j, rfl⟩
    · exact ⟨j, rfl⟩
  | none =>
    simp only [Option.isNone_none, Bool.true_or, if_true]
    exact ⟨_, rfl⟩

theorem identifyColumnsRaw_name_default (grid : List (List TableCell)) (hr : ℕ)
    (hname0 : headerNameCol grid hr = none)
    (harg : argmaxPosExcl (fun col => countColP (grid.drop (hr + 1)) col
      (fun c => c.text.any isArabicChar)) (grid.headD []).length
      (((identifyColumnsRaw grid hr).1).getD 0) = none) :
    (identifyColumnsRaw grid hr).2.1 = none := by
  have hid1 : ((identifyColumnsRaw grid hr).1).getD 0 =
      (match headerIdCol grid hr with
       | some i => i
       | none => (argmaxPos (fun col => countColP (grid.drop (hr + 1)) col
           (fun c => hasIdPattern c.text)) (grid.headD []).length).getD 0) := by
    simp only [identifyColumnsRaw]
    rw [hname0]
    simp only [Option.isNone_none, Bool.or_true, Bool.true_or, if_true]
    rfl
  rw [hid1] at harg
  simp only [identifyColumnsRaw]
  rw [hname0]
  simp only [Option.isNone_none, Bool.or_true, Bool.true_or, if_true]
  simp only [harg]

theorem finalizeColumns_props (colCount : ℕ) (t : Option ℕ × Option ℕ × List ℕ)
    (hid0 : 0 < colCount)
    (hid : ∀ i, t.1 = some i → i < colCount)
    (hm : ∀ c ∈ t.2.2, c < colCount) :
    (finalizeColumns colCount t).1 < colCount ∧
    (∀ c ∈ (finalizeColumns colCount t).2.2, c < colCount) ∧
    List.Sorted (fun a b => a ≤ b) (finalizeColumns colCount t).2.2 := by
  refine ⟨?_, ?_, ?_⟩
  · show t.1.getD 0 < colCount
    cases ht : t.1 with
    | none => simpa using hid0
    | some i => simpa using hid i ht
  · intro c hc
    simp only [finalizeColumns] at hc
    split at hc
    · exact List.mem_range.mp (List.mem_of_mem_filter hc)
    · exact hm c ((List.mem_insertionSort _).mp hc)
  · show List.Sorted (fun a b => a ≤ b)
      (if (List.insertionSort (fun a b => a ≤ b) t.2.2).isEmpty then
        (List.range colCount).filter
          (fun c2 => c2 ≠ t.1.getD 0 && c2 ≠ t.2.1.getD 1)
       else List.insertionSort (fun a b => a ≤ b) t.2.2)
    split
    · exact List.Pairwise.filter _ (List.sorted_le_range colCount)
    · exact List.sorted_insertionSort (fun a b => a ≤ b) t.2.2

/-- C2: for every non-empty rectangular grid with at least one column, the
identified structure has a header row below the row count, a valid student-id
column, valid and ascending mark columns, and the defaults id to 0 and name
to 1 when both classification passes leave the role unresolved.  (The roles
are not pairwise distinct in general, and the defaulted name column need not
be a valid index: see the counterexample.) -/
theorem claim_C2_amended (grid : List (List TableCell)) (ts : TableStructure)
    (hne : grid ≠ [])
    (hcol : 0 < (grid.headD []).length)
    (hrect : ∀ row ∈ grid, row.length = (grid.headD []).length)
    (hts : identifyTableStructure grid = some ts) :
    ts.headerRow < ts.rowCount ∧
    ts.studentIdColumn < ts.colCount ∧
    (∀ c ∈ ts.markColumns, c < ts.colCount) ∧
    List.Sorted (fun a b => a ≤ b) ts.markColumns ∧
    (headerIdCol grid (findHeaderRow grid) = none ∧
      argmaxPos (fun col => countColP (grid.drop (findHeaderRow grid + 1)) col
        (fun c => hasIdPattern c.text)) (grid.headD []).length = none →
      ts.studentIdColumn = 0) ∧
    (headerNameCol grid (findHeaderRow grid) = none ∧
      argmaxPosExcl (fun col => countColP (grid.drop (findHeaderRow grid + 1)) col
        (fun c => c.text.any isArabicChar)) (grid.headD []).length
        (((identifyColumnsRaw grid (findHeaderRow grid)).1).getD 0) = none →
      ts.studentNameColumn = 1) := by
  have hgE : grid.isEmpty = false := by
    cases grid with
    | nil => exact absurd rfl hne
    | cons a l => rfl
  simp only [identifyTableStructure, hgE, Bool.false_eq_true, if_false,
    Option.some.injEq] at hts
  subst hts
  have hhr : findHeaderRow grid < grid.length := findHeaderRow_lt grid hne
  have hidlt := identifyColumnsRaw_id_lt grid (findHeaderRow grid) hcol hrect hhr
  have hmlt := identifyColumnsRaw_marks_lt grid (findHeaderRow grid) hrect hhr
  have hfin := finalizeColumns_props (grid.headD []).length
    (identifyColumnsRaw grid (findHeaderRow grid)) hcol hidlt hmlt
  refine ⟨hhr, hfin.1, hfin.2.1, hfin.2.2, ?_, ?_⟩
  · rintro ⟨h1, h2⟩
    have h0 := identifyColumnsRaw_id_default grid (findHeaderRow grid) h1 h2
    show ((identifyColumnsRaw grid (findHeaderRow grid)).1).getD 0 = 0
    rw [h0]
    rfl
  · rintro ⟨h1, h2⟩
    have h0 := identifyColumnsRaw_name_default grid (findHeaderRow grid) h1 h2
    show ((identifyColumnsRaw grid (findHeaderRow grid)).2.1).getD 1 = 1
    rw [h0]
    rfl

def c2grid : List (List TableCell) :=
  [[{ text := "رقم".data, row := 0, col := 0, isNumeric := false, value := none },
    { text := "اسم".data, row := 0, col := 1, isNumeric := false, value := none }],
   [{ text := "1".data, row := 1, col := 0, isNumeric := true, value := some 1 },
    { text := "احمد".data, row := 1, col := 1, isNumeric := false, value := none }]]

def c2struct : TableStructure :=
  { headerRow := 0, studentIdColumn := 0, studentNameColumn := 1, markColumns := [],
    rowCount := 2, colCount := 2, cells := c2grid }

/-- Witness for C2 at a concrete two-by-two grid with Arabic id and name
headers: the hypotheses hold and the invariants are obtained from the
theorem. -/
theorem claim_C2_witness :
    c2grid ≠ [] ∧ 0 < (c2grid.headD []).length ∧
    (∀ row ∈ c2grid, row.length = (c2grid.headD []).length) ∧
    identifyTableStructure c2grid = some c2struct ∧
    (c2struct.headerRow < c2struct.rowCount ∧
     c2struct.studentIdColumn < c2struct.colCount ∧
     (∀ c ∈ c2struct.markColumns, c < c2struct.colCount) ∧
     List.Sorted (fun a b => a ≤ b) c2struct.markColumns ∧
     (headerIdCol c2grid (findHeaderRow c2grid) = none ∧
       argmaxPos (fun col => countColP (c2grid.drop (findHeaderRow c2grid + 1)) col
         (fun c => hasIdPattern c.text)) (c2grid.headD []).length = none →
       c2struct.studentIdColumn = 0) ∧
     (headerNameCol c2grid (findHeaderRow c2grid) = none ∧
       argmaxPosExcl (fun col => countColP (c2grid.drop (findHeaderRow c2grid + 1)) col
         (fun c => c.text.any isArabicChar)) (c2grid.headD []).length
         (((identifyColumnsRaw c2grid (findHeaderRow c2grid)).1).getD 0) = none →
       c2struct.studentNameColumn = 1)) :=
  ⟨by decide, by decide, by decide, by decide,
    claim_C2_amended c2grid c2struct (by decide) (by decide) (by decide) (by decide)⟩

/-- Counterexample to C2's distinctness and full-validity parts: a header cell
holding both the id and the name keyword assigns both roles to column 0, and a
single-column grid with only an id header defaults the name column to 1, which
is not a valid column index there. -/
theorem claim_C2_counterexample :
    ((identifyTableStructure [[{ text := "رقم اسم".data, row := 0, col := 0, isNumeric := false, value := none }]]).map (fun ts => (ts.studentIdColumn, ts.studentNameColumn)) = some (0, 0)) ∧
    ((identifyTableStructure [[{ text := "رقم".data, row := 0, col := 0, isNumeric := false, value := none }]]).map (fun ts => (ts.studentNameColumn, ts.colCount)) = some (1, 1)) := by
  exact ⟨by decide, by decide⟩
